import Mathlib

/-!
# The kernel key-value store of `kernel_module/keyvalue.c`

A shallow embedding of the hash table behind the `keyvalue` pseudo device and
of its three calls `keyvalue_get`, `keyvalue_set` and `keyvalue_delete`, run
one call at a time.

Representation.

* A `struct hash_node*` is a value of `hash_ptr`: `NULL`, the address of a live
  node together with the node's four fields, or `freed`, the address of a node
  that has been handed to `kfree`.  Every node of the table is owned by exactly
  one pointer (the bucket slot or the `next` field of its predecessor), so a
  chain is the tree of its pointers.
* A value buffer (`void* data`) is the list of the bytes it holds; the length of
  the list is the size that was passed to `kmalloc`.  The recorded length is the
  separate field `datasize`, as in the source.
* `kmalloc` either succeeds or returns `NULL`; the outcome of each of the two
  allocations of `keyvalue_set` is an argument of the call.
* Dereferencing `NULL` or a freed pointer, or copying more bytes than a buffer
  holds, is undefined behaviour in C: the call then ends in `Outcome.fault`
  instead of returning.
* `transaction_id` is an `unsigned`: a natural number below `2 ^ 32`, incremented
  modulo `2 ^ 32`.  The calls return a `long`, an integer.
* Each outcome lists, in order, the lock operations that the call performed.
-/

namespace KeyValue

/-! ## Constants and data -/

abbrev byte := Fin 256

/-- The number of buckets, `#define HASHTABLESIZE (1024)`. -/
def HASHTABLESIZE : Nat := 1024

/-- The mask of the low ten bits, `#define HASHKEYMASK (0x3ff)`. -/
def HASHKEYMASK : Nat := 0x3ff

/-- The mask of the high 54 bits, `#define TOP54MASK (0xfffffffffffffc00)`. -/
def TOP54MASK : Nat := 0xfffffffffffffc00

/-- The number of values of an `unsigned`, the modulus of `transaction_id++`. -/
def UINT_RANGE : Nat := 4294967296

/-- A `struct hash_node*`: `NULL`, a dangling pointer to a node that was freed,
or a pointer to a live node with its fields `top54_bits`, `data`, `datasize`
and `next`. -/
inductive hash_ptr where
  | NULL : hash_ptr
  | freed : hash_ptr
  | node (top54_bits : Nat) (data : List byte) (datasize : Nat) (next : hash_ptr) : hash_ptr
  deriving DecidableEq, Repr

/-- The globals the three calls work on: the counter `transaction_id` and the
bucket array `KV_HashTable`, indexed by the bucket number. -/
structure Store where
  transaction_id : Nat
  KV_HashTable : Nat → hash_ptr

/-- Modelled from the spec: `struct keyvalue_set` is declared in `keyvalue.h`,
which is not among the sources; these are the fields `keyvalue_set` reads, the
64-bit key, the length and the caller's bytes (section 6, `Set(key, value, length)`). -/
structure keyvalue_set_req where
  key : Nat
  size : Nat
  data : List byte
  deriving DecidableEq, Repr

/-- What `keyvalue_get` wrote through `ukv->size` and `ukv->data`. -/
structure user_copy where
  size : Nat
  data : List byte
  deriving DecidableEq, Repr

/-- The lock operations of the three calls. -/
inductive lock_op where
  | acquire_read_lock
  | release_read_lock
  | lock_update_lock
  | unlock_update_lock
  | lock_transaction_lock
  | unlock_transaction_lock
  deriving DecidableEq, Repr

/-- How a call ends: it returns `value` having written `copied` to the caller
and left the globals as `s`, or it runs into undefined behaviour. Both record
the lock operations performed so far. -/
inductive Outcome where
  | ret (value : Int) (copied : Option user_copy) (s : Store) (ops : List lock_op) : Outcome
  | fault (ops : List lock_op) : Outcome

/-! ## Helpers of the three calls -/

/-- The bucket number `ukv->key & HASHKEYMASK`. -/
def hashkey (key : Nat) : Nat := key &&& HASHKEYMASK

/-- The tag `(ukv->key & TOP54MASK) >> 10`. -/
def topbits (key : Nat) : Nat := (key &&& TOP54MASK) >>> 10

/-- The bytes `memcpy(dst, src, n)` stores at `dst`; nothing when `src` holds
fewer than `n` bytes. -/
def memcpy (src : List byte) (n : Nat) : Option (List byte) :=
  if n ≤ src.length then some (src.take n) else none

/-- The store after `transaction_id++`. -/
def advance (s : Store) : Store :=
  ⟨(s.transaction_id + 1) % UINT_RANGE, s.KV_HashTable⟩

/-- The store after an assignment to `KV_HashTable[i]`, or to a node of the
chain that hangs from it. -/
def set_bucket (s : Store) (i : Nat) (p : hash_ptr) : Store :=
  ⟨s.transaction_id, fun j => if j = i then p else s.KV_HashTable j⟩

/-- The fields of a node the scan has stepped over: tag, buffer, recorded length. -/
abbrev passed_node := Nat × List byte × Nat

/-- The chain that reaches `p` through the nodes stepped over, the nearest
one first. -/
def relink : List passed_node → hash_ptr → hash_ptr
  | [], p => p
  | (t, d, sz) :: passed, p => relink passed (hash_ptr.node t d sz p)

/-- The loop of `keyvalue_get`,
`while (iter->top54_bits != topbits && iter != NULL) iter = iter->next;`.
The test reads `iter->top54_bits` first, so it has no value when `iter` is
`NULL` or freed. -/
def scan_iter (tb : Nat) : hash_ptr → Option hash_ptr
  | hash_ptr.NULL => none
  | hash_ptr.freed => none
  | hash_ptr.node t d sz nxt =>
      if t ≠ tb ∧ hash_ptr.node t d sz nxt ≠ hash_ptr.NULL then scan_iter tb nxt
      else some (hash_ptr.node t d sz nxt)

/-- The loop of `keyvalue_set` and `keyvalue_delete`,
`while (last->top54_bits != topbits && last->next != NULL) last = last->next;`.
It returns the nodes stepped over and the final `last`. -/
def scan_last (tb : Nat) : List passed_node → hash_ptr → Option (List passed_node × hash_ptr)
  | _, hash_ptr.NULL => none
  | _, hash_ptr.freed => none
  | passed, hash_ptr.node t d sz nxt =>
      if t ≠ tb ∧ nxt ≠ hash_ptr.NULL then scan_last tb ((t, d, sz) :: passed) nxt
      else some (passed, hash_ptr.node t d sz nxt)

/-! ## The three calls -/

open lock_op in
/-- The call `keyvalue_get(ukv)` with `ukv->key = key`. -/
def keyvalue_get (s : Store) (key : Nat) : Outcome :=
  if s.KV_HashTable (hashkey key) = hash_ptr.NULL then
    Outcome.ret (-1) none s []
  else
    match scan_iter (topbits key) (s.KV_HashTable (hashkey key)) with
    | none => Outcome.fault [acquire_read_lock]
    | some hash_ptr.freed => Outcome.fault [acquire_read_lock]
    | some (hash_ptr.node _ d sz _) =>
        match memcpy d sz with
        | none => Outcome.fault [acquire_read_lock]
        | some bytes =>
            Outcome.ret (Int.ofNat (advance s).transaction_id) (some ⟨sz, bytes⟩) (advance s)
              [acquire_read_lock, release_read_lock, lock_transaction_lock,
                unlock_transaction_lock]
    | some hash_ptr.NULL =>
        Outcome.ret (-1) none s [acquire_read_lock, release_read_lock]

open lock_op in
/-- The call `keyvalue_set(ukv)`; `node_ok` and `data_ok` tell whether
`kmalloc(sizeof(struct hash_node))` and `kmalloc(ukv->size)` succeed. -/
def keyvalue_set (s : Store) (ukv : keyvalue_set_req) (node_ok data_ok : Bool) : Outcome :=
  if s.KV_HashTable (hashkey ukv.key) = hash_ptr.NULL then
    if node_ok = false then
      Outcome.ret (-1) none (set_bucket s (hashkey ukv.key) hash_ptr.NULL)
        [lock_update_lock, unlock_update_lock]
    else if data_ok = false then
      Outcome.ret (-1) none (set_bucket s (hashkey ukv.key) hash_ptr.freed)
        [lock_update_lock, unlock_update_lock]
    else
      match memcpy ukv.data ukv.size with
      | none => Outcome.fault [lock_update_lock]
      | some bytes =>
          Outcome.ret
            (Int.ofNat (advance (set_bucket s (hashkey ukv.key)
              (hash_ptr.node (topbits ukv.key) bytes ukv.size hash_ptr.NULL))).transaction_id)
            none
            (advance (set_bucket s (hashkey ukv.key)
              (hash_ptr.node (topbits ukv.key) bytes ukv.size hash_ptr.NULL)))
            [lock_update_lock, unlock_update_lock, lock_transaction_lock,
              unlock_transaction_lock]
  else
    match scan_last (topbits ukv.key) [] (s.KV_HashTable (hashkey ukv.key)) with
    | none => Outcome.fault [lock_update_lock]
    | some (_, hash_ptr.NULL) => Outcome.fault [lock_update_lock]
    | some (_, hash_ptr.freed) => Outcome.fault [lock_update_lock]
    | some (passed, hash_ptr.node t d sz nxt) =>
        if t = topbits ukv.key then
          if data_ok = false then
            Outcome.ret (-1) none
              (set_bucket s (hashkey ukv.key) (relink passed (hash_ptr.node t d ukv.size nxt)))
              [lock_update_lock, unlock_update_lock]
          else
            match memcpy ukv.data ukv.size with
            | none => Outcome.fault [lock_update_lock]
            | some bytes =>
                Outcome.ret
                  (Int.ofNat (advance (set_bucket s (hashkey ukv.key)
                    (relink passed (hash_ptr.node t bytes ukv.size nxt)))).transaction_id)
                  none
                  (advance (set_bucket s (hashkey ukv.key)
                    (relink passed (hash_ptr.node t bytes ukv.size nxt))))
                  [lock_update_lock, unlock_update_lock, lock_transaction_lock,
                    unlock_transaction_lock]
        else if nxt = hash_ptr.NULL then
          if node_ok = false then
            Outcome.ret (-1) none
              (set_bucket s (hashkey ukv.key) (relink passed (hash_ptr.node t d sz hash_ptr.NULL)))
              [lock_update_lock, unlock_update_lock]
          else if data_ok = false then
            Outcome.ret (-1) none
              (set_bucket s (hashkey ukv.key) (relink passed (hash_ptr.node t d sz hash_ptr.NULL)))
              [lock_update_lock, unlock_update_lock]
          else
            match memcpy ukv.data ukv.size with
            | none => Outcome.fault [lock_update_lock]
            | some bytes =>
                Outcome.ret
                  (Int.ofNat (advance (set_bucket s (hashkey ukv.key)
                    (relink passed (hash_ptr.node t d sz
                      (hash_ptr.node (topbits ukv.key) bytes ukv.size hash_ptr.NULL))))).transaction_id)
                  none
                  (advance (set_bucket s (hashkey ukv.key)
                    (relink passed (hash_ptr.node t d sz
                      (hash_ptr.node (topbits ukv.key) bytes ukv.size hash_ptr.NULL)))))
                  [lock_update_lock, unlock_update_lock, lock_transaction_lock,
                    unlock_transaction_lock]
        else
          Outcome.ret (-1) none s [lock_update_lock, unlock_update_lock]

open lock_op in
/-- The call `keyvalue_delete(ukv)` with `ukv->key = key`. -/
def keyvalue_delete (s : Store) (key : Nat) : Outcome :=
  if s.KV_HashTable (hashkey key) = hash_ptr.NULL then
    Outcome.ret (-1) none s [lock_update_lock, unlock_update_lock]
  else
    match scan_last (topbits key) [] (s.KV_HashTable (hashkey key)) with
    | none => Outcome.fault [lock_update_lock]
    | some (_, hash_ptr.NULL) => Outcome.fault [lock_update_lock]
    | some (_, hash_ptr.freed) => Outcome.fault [lock_update_lock]
    | some (passed, hash_ptr.node t _ _ nxt) =>
        if t = topbits key then
          match passed with
          | [] =>
              Outcome.ret (Int.ofNat (advance (set_bucket s (hashkey key) nxt)).transaction_id)
                none (advance (set_bucket s (hashkey key) nxt))
                [lock_update_lock, unlock_update_lock, lock_transaction_lock,
                  unlock_transaction_lock]
          | (pt, pd, psz) :: before =>
              Outcome.ret
                (Int.ofNat (advance (set_bucket s (hashkey key)
                  (relink before (hash_ptr.node pt pd psz nxt)))).transaction_id)
                none
                (advance (set_bucket s (hashkey key)
                  (relink before (hash_ptr.node pt pd psz nxt))))
                [lock_update_lock, unlock_update_lock, lock_transaction_lock,
                  unlock_transaction_lock]
        else if nxt = hash_ptr.NULL then
          Outcome.ret (-1) none s [lock_update_lock, unlock_update_lock]
        else
          Outcome.ret (-1) none s [lock_update_lock, unlock_update_lock]

/-! ## Observations on chains and sequences of calls -/

/-- The tags of the live nodes of a chain, in chain order. -/
def tags : hash_ptr → List Nat
  | hash_ptr.NULL => []
  | hash_ptr.freed => []
  | hash_ptr.node t _ _ nxt => t :: tags nxt

/-- The chain is a finite list of live nodes that ends in `NULL`. -/
def null_terminated : hash_ptr → Bool
  | hash_ptr.NULL => true
  | hash_ptr.freed => false
  | hash_ptr.node _ _ _ nxt => null_terminated nxt

/-- One call of the device, with the allocation outcomes of a `set`. -/
inductive request where
  | get (key : Nat) : request
  | set (ukv : keyvalue_set_req) (node_ok data_ok : Bool) : request
  | delete (key : Nat) : request

/-- The outcome of one call. -/
def call (s : Store) : request → Outcome
  | request.get key => keyvalue_get s key
  | request.set ukv node_ok data_ok => keyvalue_set s ukv node_ok data_ok
  | request.delete key => keyvalue_delete s key

/-- The tokens returned by the successful calls of a sequence run one after
the other from `s`, in call order; the run ends at a call that faults. -/
def tokens : Store → List request → List Int
  | _, [] => []
  | s, r :: rs =>
      match call s r with
      | Outcome.ret v _ s1 _ => if v = -1 then tokens s1 rs else v :: tokens s1 rs
      | Outcome.fault _ => []

/-- The store when the module is loaded: the globals `transaction_id` and
`KV_HashTable` have no initialiser, so the counter is 0 and every slot is `NULL`. -/
def initial_store : Store := ⟨0, fun _ => hash_ptr.NULL⟩

/-- The store a sequence of calls leaves when they run one after the other
from `s` and all return; nothing when one of them faults. -/
def run_calls : Store → List request → Option Store
  | s, [] => some s
  | s, r :: rs =>
      match call s r with
      | Outcome.ret _ _ s1 _ => run_calls s1 rs
      | Outcome.fault _ => none

/-- In the chain of every bucket the nodes carry pairwise distinct tags. -/
def distinct_tags (s : Store) : Prop := ∀ j, (tags (s.KV_HashTable j)).Nodup

/-- The splice in the words of the spec: the chain without its first node that
carries the tag `tb`, every other node kept in place with its fields. -/
def chain_remove_first (tb : Nat) : hash_ptr → hash_ptr
  | hash_ptr.NULL => hash_ptr.NULL
  | hash_ptr.freed => hash_ptr.freed
  | hash_ptr.node t d sz nxt =>
      if t = tb then nxt else hash_ptr.node t d sz (chain_remove_first tb nxt)

/-! ## The reader/writer gate as a state machine

One step is one whole call of `acquire_read_lock` or `release_read_lock` (each
runs under `r_lock.read_sem`, so no two of them overlap), or one `mutex_lock` or
`mutex_unlock` of `update_lock` by a writer.  A step that would have to wait for
a mutex is not enabled. -/

/-- Who took `update_lock`: the first reader, inside `acquire_read_lock`, or
the writer `t`. -/
inductive lock_holder where
  | readers : lock_holder
  | writer (t : Nat) : lock_holder
  deriving DecidableEq, Repr

/-- The state of the gate: `r_lock.readers`, the holder of `update_lock` if it is
taken, the threads that are between `acquire_read_lock` and `release_read_lock`,
and the threads that are between `mutex_lock(&update_lock)` and
`mutex_unlock(&update_lock)` of a set or delete. -/
structure gate_state where
  readers : Int
  update_lock : Option lock_holder
  active_readers : List Nat
  active_writers : List Nat
  deriving DecidableEq, Repr

/-- The gate after `initialize_locks`: `readers = 0` and both mutexes free. -/
def gate_init : gate_state := ⟨0, none, [], []⟩

/-- The call `acquire_read_lock(&r_lock)` by thread `t`:
`readers += 1; if (readers == 1) mutex_lock(&update_lock);`. -/
def acquire_read_lock (g : gate_state) (t : Nat) : Option gate_state :=
  if g.readers + 1 = 1 then
    if g.update_lock = none then
      some ⟨g.readers + 1, some lock_holder.readers, t :: g.active_readers, g.active_writers⟩
    else none
  else some ⟨g.readers + 1, g.update_lock, t :: g.active_readers, g.active_writers⟩

/-- The call `release_read_lock(&r_lock)` by a thread `t` that holds the read
lock: `readers -= 1; if (readers == 0) mutex_unlock(&update_lock);`. -/
def release_read_lock (g : gate_state) (t : Nat) : Option gate_state :=
  if t ∈ g.active_readers then
    if g.readers - 1 = 0 then
      some ⟨g.readers - 1, none, g.active_readers.erase t, g.active_writers⟩
    else some ⟨g.readers - 1, g.update_lock, g.active_readers.erase t, g.active_writers⟩
  else none

/-- The `mutex_lock(&update_lock)` of `keyvalue_set` and `keyvalue_delete` by
thread `t`. -/
def writer_lock (g : gate_state) (t : Nat) : Option gate_state :=
  if g.update_lock = none then
    some ⟨g.readers, some (lock_holder.writer t), g.active_readers, t :: g.active_writers⟩
  else none

/-- The `mutex_unlock(&update_lock)` of `keyvalue_set` and `keyvalue_delete` by
a thread `t` that is writing. -/
def writer_unlock (g : gate_state) (t : Nat) : Option gate_state :=
  if t ∈ g.active_writers then
    some ⟨g.readers, none, g.active_readers, g.active_writers.erase t⟩
  else none

/-- The steps of the gate. -/
inductive gate_action where
  | acquire_read (t : Nat) : gate_action
  | release_read (t : Nat) : gate_action
  | lock_write (t : Nat) : gate_action
  | unlock_write (t : Nat) : gate_action
  deriving DecidableEq, Repr

/-- One step of the gate; nothing when the step is not enabled. -/
def gate_step (g : gate_state) : gate_action → Option gate_state
  | gate_action.acquire_read t => acquire_read_lock g t
  | gate_action.release_read t => release_read_lock g t
  | gate_action.lock_write t => writer_lock g t
  | gate_action.unlock_write t => writer_unlock g t

/-- The state a sequence of enabled steps leads to. -/
def gate_run : gate_state → List gate_action → Option gate_state
  | g, [] => some g
  | g, a :: rest =>
      match gate_step g a with
      | some g1 => gate_run g1 rest
      | none => none

/-- The invariant of the gate: `readers` counts the active readers, and
`update_lock` is free with nobody active, or taken by the readers with at least
one reader and no writer active, or taken by a writer who is the only active
thread. -/
def gate_inv (g : gate_state) : Prop :=
  g.readers = g.active_readers.length ∧
  match g.update_lock with
  | none => g.active_readers = [] ∧ g.active_writers = []
  | some lock_holder.readers => g.active_readers ≠ [] ∧ g.active_writers = []
  | some (lock_holder.writer t) => g.active_readers = [] ∧ g.active_writers = [t]

/-! ## Lemmas on the scans -/

theorem relink_append (l1 l2 : List passed_node) (p : hash_ptr) :
    relink (l1 ++ l2) p = relink l2 (relink l1 p) := by
  induction l1 generalizing p with
  | nil => rfl
  | cons x l1 ih =>
      obtain ⟨t, d, sz⟩ := x
      simp only [List.cons_append, relink]
      exact ih _

theorem tags_relink (passed : List passed_node) (p : hash_ptr) :
    tags (relink passed p) = (passed.map (fun x => x.1)).reverse ++ tags p := by
  induction passed generalizing p with
  | nil => simp [relink]
  | cons x passed ih =>
      obtain ⟨t, d, sz⟩ := x
      simp [relink, ih, tags]

theorem null_terminated_relink (passed : List passed_node) (p : hash_ptr) :
    null_terminated (relink passed p) = null_terminated p := by
  induction passed generalizing p with
  | nil => rfl
  | cons x passed ih =>
      obtain ⟨t, d, sz⟩ := x
      simp [relink, ih, null_terminated]

/-- What the scan of `keyvalue_set` and `keyvalue_delete` returns: the nodes it
stepped over all carry another tag, relinking them in front of `last` gives the
chain back, and `last` is a live node that carries the tag or is the final node. -/
theorem scan_last_spec (tb : Nat) (p : hash_ptr) (passed passed1 : List passed_node)
    (q : hash_ptr) (h : scan_last tb passed p = some (passed1, q)) :
    ∃ extra, passed1 = extra ++ passed ∧ (∀ x ∈ extra, x.1 ≠ tb) ∧ relink extra q = p ∧
      ∃ t d sz nxt, q = hash_ptr.node t d sz nxt ∧ (t = tb ∨ nxt = hash_ptr.NULL) := by
  induction p generalizing passed with
  | NULL => simp [scan_last] at h
  | freed => simp [scan_last] at h
  | node t d sz nxt ih =>
      unfold scan_last at h
      split at h
      · rename_i hc
        obtain ⟨extra, h1, h2, h3, h4⟩ := ih _ h
        refine ⟨extra ++ [(t, d, sz)], by simp [h1], ?_, ?_, h4⟩
        · intro x hx
          rcases List.mem_append.mp hx with hx | hx
          · exact h2 x hx
          · simp at hx
            subst hx
            exact hc.1
        · rw [relink_append, h3]
          rfl
      · rename_i hc
        simp only [Option.some.injEq, Prod.mk.injEq] at h
        obtain ⟨h1, h2⟩ := h
        subst h1 h2
        refine ⟨[], by simp, by simp, rfl, t, d, sz, nxt, rfl, ?_⟩
        by_cases ht : t = tb
        · exact Or.inl ht
        · right
          by_contra hn
          exact hc ⟨ht, hn⟩

/-- The scan of `keyvalue_get` steps over nodes that carry another tag. -/
theorem scan_iter_relink (tb : Nat) (passed : List passed_node) (q : hash_ptr)
    (h : ∀ x ∈ passed, x.1 ≠ tb) : scan_iter tb (relink passed q) = scan_iter tb q := by
  induction passed generalizing q with
  | nil => rfl
  | cons x passed ih =>
      obtain ⟨t, d, sz⟩ := x
      have ht : t ≠ tb := h (t, d, sz) (List.mem_cons_self _ _)
      have hrest : ∀ x ∈ passed, x.1 ≠ tb := fun x hx => h x (List.mem_cons_of_mem _ hx)
      simp only [relink]
      rw [ih _ hrest]
      simp [scan_iter, ht]

/-- On a chain that ends in `NULL` and holds no node with the tag, the scan of
`keyvalue_get` runs off the end of the chain. -/
theorem scan_iter_absent (tb : Nat) (p : hash_ptr) (h : tb ∉ tags p) :
    scan_iter tb p = none := by
  induction p with
  | NULL => rfl
  | freed => rfl
  | node t d sz nxt ih =>
      simp only [tags, List.mem_cons, not_or] at h
      have ht : t ≠ tb := fun e => h.1 e.symm
      simp [scan_iter, ht, ih h.2]

/-! ## What a call that returns has done -/

/-- A successful `keyvalue_set` leaves in the bucket a chain whose first node
with the tag holds the copied bytes and the new length; the chain before was
empty, or held that node with another value, or ended just before it. -/
theorem keyvalue_set_success (s s1 : Store) (ukv : keyvalue_set_req) (node_ok data_ok : Bool)
    (tok : Int) (c : Option user_copy) (ops : List lock_op)
    (h : keyvalue_set s ukv node_ok data_ok = Outcome.ret tok c s1 ops) (hne : tok ≠ -1) :
    ∃ bytes passed rest, memcpy ukv.data ukv.size = some bytes ∧
      (∀ x ∈ passed, x.1 ≠ topbits ukv.key) ∧
      s1 = advance (set_bucket s (hashkey ukv.key)
        (relink passed (hash_ptr.node (topbits ukv.key) bytes ukv.size rest))) ∧
      tok = Int.ofNat ((s.transaction_id + 1) % UINT_RANGE) ∧
      ((s.KV_HashTable (hashkey ukv.key) = hash_ptr.NULL ∧ passed = [] ∧ rest = hash_ptr.NULL) ∨
       (∃ d0 sz0, s.KV_HashTable (hashkey ukv.key) =
          relink passed (hash_ptr.node (topbits ukv.key) d0 sz0 rest)) ∨
       (rest = hash_ptr.NULL ∧ s.KV_HashTable (hashkey ukv.key) = relink passed hash_ptr.NULL ∧
          passed ≠ [])) := by
  unfold keyvalue_set at h
  split at h
  · rename_i hnull
    split at h
    · simp only [Outcome.ret.injEq] at h
      exact absurd h.1.symm hne
    split at h
    · simp only [Outcome.ret.injEq] at h
      exact absurd h.1.symm hne
    split at h
    · simp at h
    · rename_i bytes hm
      simp only [Outcome.ret.injEq] at h
      obtain ⟨h1, -, h3, -⟩ := h
      exact ⟨bytes, [], hash_ptr.NULL, hm, by simp, h3.symm, h1.symm, Or.inl ⟨hnull, rfl, rfl⟩⟩
  · split at h
    · simp at h
    · simp at h
    · simp at h
    · rename_i passed t d sz nxt hscan
      obtain ⟨extra, he, hall, hre, -⟩ := scan_last_spec _ _ _ _ _ hscan
      simp only [List.append_nil] at he
      subst he
      split at h
      · rename_i ht
        subst ht
        split at h
        · simp only [Outcome.ret.injEq] at h
          exact absurd h.1.symm hne
        split at h
        · simp at h
        · rename_i bytes hm
          simp only [Outcome.ret.injEq] at h
          obtain ⟨h1, -, h3, -⟩ := h
          exact ⟨bytes, passed, nxt, hm, hall, h3.symm, h1.symm, Or.inr (Or.inl ⟨d, sz, hre.symm⟩)⟩
      · rename_i ht
        split at h
        · rename_i hnxt
          subst hnxt
          split at h
          · simp only [Outcome.ret.injEq] at h
            exact absurd h.1.symm hne
          split at h
          · simp only [Outcome.ret.injEq] at h
            exact absurd h.1.symm hne
          split at h
          · simp at h
          · rename_i bytes hm
            simp only [Outcome.ret.injEq] at h
            obtain ⟨h1, -, h3, -⟩ := h
            refine ⟨bytes, (t, d, sz) :: passed, hash_ptr.NULL, hm, ?_, h3.symm, h1.symm,
              Or.inr (Or.inr ⟨rfl, hre.symm, by simp⟩)⟩
            intro x hx
            rcases List.mem_cons.mp hx with hx | hx
            · subst hx
              exact ht
            · exact hall x hx
        · simp only [Outcome.ret.injEq] at h
          exact absurd h.1.symm hne

theorem relink_ne_NULL (passed : List passed_node) (t : Nat) (d : List byte) (sz : Nat)
    (rest : hash_ptr) : relink passed (hash_ptr.node t d sz rest) ≠ hash_ptr.NULL := by
  induction passed generalizing t d sz rest with
  | nil => simp [relink]
  | cons x passed ih =>
      obtain ⟨t1, d1, sz1⟩ := x
      simp only [relink]
      exact ih _ _ _ _

theorem memcpy_all (v : List byte) : memcpy v v.length = some v := by
  simp [memcpy]

/-- When the first node with the tag of `key` holds a buffer of at least
`datasize` bytes, `keyvalue_get` copies that many bytes out and advances the counter. -/
theorem keyvalue_get_found (s : Store) (key : Nat) (passed : List passed_node)
    (d : List byte) (sz : Nat) (rest : hash_ptr) (bytes : List byte)
    (hc : s.KV_HashTable (hashkey key) = relink passed (hash_ptr.node (topbits key) d sz rest))
    (hp : ∀ x ∈ passed, x.1 ≠ topbits key) (hm : memcpy d sz = some bytes) :
    keyvalue_get s key =
      Outcome.ret (Int.ofNat ((s.transaction_id + 1) % UINT_RANGE)) (some ⟨sz, bytes⟩) (advance s)
        [lock_op.acquire_read_lock, lock_op.release_read_lock, lock_op.lock_transaction_lock,
          lock_op.unlock_transaction_lock] := by
  unfold keyvalue_get
  rw [hc, if_neg (relink_ne_NULL _ _ _ _ _), scan_iter_relink _ _ _ hp]
  simp [scan_iter, hm, advance]

theorem set_bucket_same (s : Store) (i : Nat) (p : hash_ptr) :
    (advance (set_bucket s i p)).KV_HashTable i = p := by
  simp [advance, set_bucket]

theorem set_bucket_other (s : Store) (i j : Nat) (p : hash_ptr) (h : j ≠ i) :
    (advance (set_bucket s i p)).KV_HashTable j = s.KV_HashTable j := by
  simp [advance, set_bucket, h]

/-! ## Round trip (C1) -/

/-- C1, as stated, fails where the counter wraps: from a store whose counter is
`2 ^ 32 - 2`, a successful `keyvalue_set` of key 0 returns the token
`2 ^ 32 - 1`, and the `keyvalue_get` that follows returns the bytes with the
token 0, which is not greater. -/
theorem round_trip_token_not_greater :
    ∃ s1 s2 c ops1 ops2,
      keyvalue_set ⟨4294967294, fun _ => hash_ptr.NULL⟩ ⟨0, 1, [5]⟩ true true =
        Outcome.ret 4294967295 c s1 ops1 ∧
      keyvalue_get s1 0 = Outcome.ret 0 (some ⟨1, [5]⟩) s2 ops2 ∧
      ¬ ((4294967295 : Int) < 0) :=
  ⟨_, _, _, _, _, rfl, rfl, by decide⟩

/-- C1, amended: when `keyvalue_set` of key `k` and payload `v` succeeds, the
`keyvalue_get` of `k` that follows succeeds, reports the length of `v` and the
bytes of `v`, and its token is the token of the set plus one modulo `2 ^ 32`,
which is strictly greater unless the token of the set is `2 ^ 32 - 1`. -/
theorem set_get_round_trip (s s1 : Store) (k : Nat) (v : List byte) (node_ok data_ok : Bool)
    (tokS : Int) (c : Option user_copy) (ops : List lock_op)
    (h : keyvalue_set s ⟨k, v.length, v⟩ node_ok data_ok = Outcome.ret tokS c s1 ops)
    (hne : tokS ≠ -1) :
    ∃ tokG s2 ops2, keyvalue_get s1 k = Outcome.ret tokG (some ⟨v.length, v⟩) s2 ops2 ∧
      tokG ≠ -1 ∧ tokG = (tokS + 1) % 4294967296 ∧ (tokS ≠ 4294967295 → tokS < tokG) := by
  obtain ⟨bytes, passed, rest, hm, hp, hs1, htok, -⟩ :=
    keyvalue_set_success s s1 _ node_ok data_ok tokS c ops h hne
  simp only [memcpy_all, Option.some.injEq] at hm
  subst hm
  have hc : s1.KV_HashTable (hashkey k) =
      relink passed (hash_ptr.node (topbits k) v v.length rest) := by
    rw [hs1]
    exact set_bucket_same _ _ _
  have htid : s1.transaction_id = (s.transaction_id + 1) % UINT_RANGE := by
    rw [hs1]
    rfl
  refine ⟨_, _, _, keyvalue_get_found s1 k passed v v.length rest v hc hp (memcpy_all v), ?_, ?_, ?_⟩
  · simp only [Int.ofNat_eq_coe]
    omega
  · rw [htok, htid]
    simp only [Int.ofNat_eq_coe, UINT_RANGE]
    omega
  · rw [htok, htid]
    simp only [Int.ofNat_eq_coe, UINT_RANGE]
    omega

/-- A run of `set_get_round_trip` on the empty table: key 5 with the payload `[7, 9]`. -/
theorem set_get_round_trip_witness :
    ∃ tokG s2 ops2,
      keyvalue_get (advance (set_bucket ⟨0, fun _ => hash_ptr.NULL⟩ 5
          (hash_ptr.node 0 [7, 9] 2 hash_ptr.NULL))) 5 =
        Outcome.ret tokG (some ⟨2, [7, 9]⟩) s2 ops2 ∧
      tokG ≠ -1 ∧ tokG = ((1 : Int) + 1) % 4294967296 ∧
      ((1 : Int) ≠ 4294967295 → (1 : Int) < tokG) :=
  set_get_round_trip ⟨0, fun _ => hash_ptr.NULL⟩ _ 5 [7, 9] true true 1 none _ rfl (by decide)

/-! ## The key split -/

theorem hashkey_eq (key : Nat) : hashkey key = key &&& 0x3ff := rfl

theorem shiftRight_land (a b i : Nat) : (a &&& b) >>> i = a >>> i &&& b >>> i := by
  apply Nat.eq_of_testBit_eq
  intro j
  simp [Nat.testBit_shiftRight, Nat.testBit_and]

/-- For a 64-bit key the tag is the key shifted right by ten bits. -/
theorem topbits_eq_shift (key : Nat) (hk : key < 2 ^ 64) : topbits key = key >>> 10 := by
  have hmask : TOP54MASK >>> 10 = 2 ^ 54 - 1 := by decide
  have hlt : key >>> 10 < 2 ^ 54 := by
    rw [Nat.shiftRight_eq_div_pow]
    omega
  unfold topbits
  rw [shiftRight_land, hmask, Nat.and_pow_two_sub_one_eq_mod, Nat.mod_eq_of_lt hlt]

/-! ## Overwrite (C2) -/

/-- The tags of the bucket after a successful `keyvalue_set`: unchanged when the
tag was there, and with the tag added at the end when it was not. -/
theorem keyvalue_set_tags (s s1 : Store) (ukv : keyvalue_set_req) (node_ok data_ok : Bool)
    (tok : Int) (c : Option user_copy) (ops : List lock_op)
    (h : keyvalue_set s ukv node_ok data_ok = Outcome.ret tok c s1 ops) (hne : tok ≠ -1) :
    tags (s1.KV_HashTable (hashkey ukv.key)) =
      if topbits ukv.key ∈ tags (s.KV_HashTable (hashkey ukv.key))
      then tags (s.KV_HashTable (hashkey ukv.key))
      else tags (s.KV_HashTable (hashkey ukv.key)) ++ [topbits ukv.key] := by
  obtain ⟨bytes, passed, rest, -, hp, hs1, -, hcase⟩ :=
    keyvalue_set_success s s1 ukv node_ok data_ok tok c ops h hne
  have hnot : topbits ukv.key ∉ (passed.map (fun x => x.1)).reverse := by
    intro hmem
    rw [List.mem_reverse, List.mem_map] at hmem
    obtain ⟨x, hx, hxe⟩ := hmem
    exact hp x hx hxe
  rw [hs1, set_bucket_same, tags_relink]
  rcases hcase with ⟨h0, hpass, hrest⟩ | ⟨d0, sz0, h0⟩ | ⟨hrest, h0, -⟩
  · subst hpass hrest
    simp [h0, tags]
  · rw [h0, tags_relink]
    simp [tags]
  · subst hrest
    rw [h0, tags_relink]
    simp only [tags, List.append_nil]
    rw [if_neg hnot]

/-- C2: from a store whose chain for the bucket of `k` has pairwise distinct
tags, after a successful `keyvalue_set` of `k` with `v1` and a successful
`keyvalue_set` of `k` with `v2`, `keyvalue_get` of `k` succeeds with the length
and bytes of `v2`, and the chain of bucket `k & 0x3ff` holds exactly one node
whose tag is `k >> 10`. -/
theorem set_set_overwrites (s s1 s2 : Store) (k : Nat) (v1 v2 : List byte)
    (n1 d1 n2 d2 : Bool) (tok1 tok2 : Int) (c1 c2 : Option user_copy)
    (ops1 ops2 : List lock_op) (hk : k < 2 ^ 64)
    (hinv : (tags (s.KV_HashTable (k &&& 0x3ff))).Nodup)
    (h1 : keyvalue_set s ⟨k, v1.length, v1⟩ n1 d1 = Outcome.ret tok1 c1 s1 ops1)
    (hne1 : tok1 ≠ -1)
    (h2 : keyvalue_set s1 ⟨k, v2.length, v2⟩ n2 d2 = Outcome.ret tok2 c2 s2 ops2)
    (hne2 : tok2 ≠ -1) :
    (∃ tokG s3 ops3, keyvalue_get s2 k = Outcome.ret tokG (some ⟨v2.length, v2⟩) s3 ops3 ∧
      tokG ≠ -1) ∧
    (tags (s2.KV_HashTable (k &&& 0x3ff))).count (k >>> 10) = 1 := by
  constructor
  · obtain ⟨bytes, passed, rest, hm, hp, hs2, -, -⟩ :=
      keyvalue_set_success s1 s2 _ n2 d2 tok2 c2 ops2 h2 hne2
    simp only [memcpy_all, Option.some.injEq] at hm
    subst hm
    have hc : s2.KV_HashTable (hashkey k) =
        relink passed (hash_ptr.node (topbits k) v2 v2.length rest) := by
      rw [hs2]
      exact set_bucket_same _ _ _
    refine ⟨_, _, _, keyvalue_get_found s2 k passed v2 v2.length rest v2 hc hp (memcpy_all v2), ?_⟩
    simp only [Int.ofNat_eq_coe]
    omega
  · have e1 := keyvalue_set_tags s s1 _ n1 d1 tok1 c1 ops1 h1 hne1
    have e2 := keyvalue_set_tags s1 s2 _ n2 d2 tok2 c2 ops2 h2 hne2
    simp only [hashkey_eq, topbits_eq_shift k hk] at e1 e2
    have hmem1 : k >>> 10 ∈ tags (s1.KV_HashTable (k &&& 0x3ff)) := by
      rw [e1]
      split
      · assumption
      · simp
    have hnd1 : (tags (s1.KV_HashTable (k &&& 0x3ff))).Nodup := by
      rw [e1]
      split
      · exact hinv
      · rename_i hno
        exact List.Nodup.append hinv (List.nodup_singleton _) (by simpa using hno)
    rw [if_pos hmem1] at e2
    rw [e2]
    exact List.count_eq_one_of_mem hnd1 hmem1

/-- A run of `set_set_overwrites`: key 1029 is set twice in a bucket that
already holds key 5. -/
theorem set_set_overwrites_witness :
    (∃ tokG s3 ops3,
      keyvalue_get
        (advance (set_bucket
          (advance (set_bucket ⟨0, fun j => if j = 5 then hash_ptr.node 0 [1] 1 hash_ptr.NULL
              else hash_ptr.NULL⟩ 5
            (hash_ptr.node 0 [1] 1 (hash_ptr.node 1 [7, 9] 2 hash_ptr.NULL))))
          5 (hash_ptr.node 0 [1] 1 (hash_ptr.node 1 [8] 1 hash_ptr.NULL)))) 1029 =
        Outcome.ret tokG (some ⟨1, [8]⟩) s3 ops3 ∧ tokG ≠ -1) ∧
    (tags ((advance (set_bucket
          (advance (set_bucket ⟨0, fun j => if j = 5 then hash_ptr.node 0 [1] 1 hash_ptr.NULL
              else hash_ptr.NULL⟩ 5
            (hash_ptr.node 0 [1] 1 (hash_ptr.node 1 [7, 9] 2 hash_ptr.NULL))))
          5 (hash_ptr.node 0 [1] 1 (hash_ptr.node 1 [8] 1 hash_ptr.NULL)))).KV_HashTable
        (1029 &&& 0x3ff))).count (1029 >>> 10) = 1 :=
  set_set_overwrites
    ⟨0, fun j => if j = 5 then hash_ptr.node 0 [1] 1 hash_ptr.NULL else hash_ptr.NULL⟩ _ _
    1029 [7, 9] [8] true true true true 1 2 none none _ _ (by decide) (by decide) rfl
    (by decide) rfl (by decide)

/-! ## Delete then get (C3) and the lookup miss (C4) -/

/-- C3 at a failing input: bucket 0 holds key 1024; after a successful
`keyvalue_set` of key 0 and a successful `keyvalue_delete` of key 0, the
`keyvalue_get` of key 0 does not return -1: its scan reads a field of the
`NULL` that ends the chain. -/
theorem set_delete_get_faults :
    ∃ s1 s2 tok1 tok2 ops1 ops2,
      keyvalue_set ⟨0, fun j => if j = 0 then hash_ptr.node 1 [7] 1 hash_ptr.NULL
          else hash_ptr.NULL⟩ ⟨0, 1, [5]⟩ true true = Outcome.ret tok1 none s1 ops1 ∧
      tok1 ≠ -1 ∧
      keyvalue_delete s1 0 = Outcome.ret tok2 none s2 ops2 ∧ tok2 ≠ -1 ∧
      s2.KV_HashTable 0 = hash_ptr.node 1 [7] 1 hash_ptr.NULL ∧
      keyvalue_get s2 0 = Outcome.fault [lock_op.acquire_read_lock] :=
  ⟨_, _, _, _, _, _, rfl, by decide, rfl, by decide, rfl, rfl⟩

/-- C4 fails on the code: when the bucket of `key` is not empty and no node of
its chain carries the tag of `key`, `keyvalue_get` does not return: after
taking the read lock its scan reads `top54_bits` through the `NULL` (or freed
pointer) at the end of the chain. -/
theorem keyvalue_get_miss_faults (s : Store) (key : Nat)
    (hne : s.KV_HashTable (hashkey key) ≠ hash_ptr.NULL)
    (habs : topbits key ∉ tags (s.KV_HashTable (hashkey key))) :
    keyvalue_get s key = Outcome.fault [lock_op.acquire_read_lock] := by
  unfold keyvalue_get
  rw [if_neg hne, scan_iter_absent _ _ habs]

/-- The lookup of key 0 in a bucket that only holds key 1024. -/
theorem keyvalue_get_miss_faults_witness :
    keyvalue_get ⟨0, fun j => if j = 0 then hash_ptr.node 1 [7] 1 hash_ptr.NULL
        else hash_ptr.NULL⟩ 0 = Outcome.fault [lock_op.acquire_read_lock] :=
  keyvalue_get_miss_faults _ 0 (by decide) (by decide)

/-! ## Allocation failures of `keyvalue_set` (C5, C6, C7) -/

/-- C5 at a failing input: key 0 holds the two bytes `[1, 2]`; a
`keyvalue_set` of key 0 with the one byte `[9]` whose buffer allocation fails
returns -1 and keeps the old buffer, but the recorded length is now 1, and the
`keyvalue_get` that follows reports the length 1 and the byte `[1]`. -/
theorem update_failure_keeps_new_length :
    ∃ s1 s2 ops1 ops2,
      keyvalue_set ⟨0, fun j => if j = 0 then hash_ptr.node 0 [1, 2] 2 hash_ptr.NULL
          else hash_ptr.NULL⟩ ⟨0, 1, [9]⟩ true false = Outcome.ret (-1) none s1 ops1 ∧
      s1.KV_HashTable 0 = hash_ptr.node 0 [1, 2] 1 hash_ptr.NULL ∧
      keyvalue_get s1 0 = Outcome.ret 1 (some ⟨1, [1]⟩) s2 ops2 :=
  ⟨_, _, _, _, rfl, rfl, rfl⟩

/-- C6 at a failing input: in the empty table, a `keyvalue_set` of key 0 whose
node allocation succeeds and whose buffer allocation fails returns -1 and
leaves in slot 0 the address of the node it freed; the next `keyvalue_get` of
key 0 reads that freed node. -/
theorem empty_bucket_failure_leaves_freed_node :
    ∃ s1 ops1,
      keyvalue_set ⟨0, fun _ => hash_ptr.NULL⟩ ⟨0, 1, [5]⟩ true false =
        Outcome.ret (-1) none s1 ops1 ∧
      s1.KV_HashTable 0 = hash_ptr.freed ∧ s1.KV_HashTable 0 ≠ hash_ptr.NULL ∧
      keyvalue_get s1 0 = Outcome.fault [lock_op.acquire_read_lock] :=
  ⟨_, _, rfl, rfl, by decide, rfl⟩

/-- On a chain of live nodes that ends in `NULL`, the scan of `keyvalue_set`
and `keyvalue_delete` ends. -/
theorem scan_last_total (tb : Nat) (p : hash_ptr) (passed : List passed_node)
    (hnt : null_terminated p = true) (hne : p ≠ hash_ptr.NULL) :
    ∃ passed1 q, scan_last tb passed p = some (passed1, q) := by
  induction p generalizing passed with
  | NULL => exact absurd rfl hne
  | freed => simp [null_terminated] at hnt
  | node t d sz nxt ih =>
      unfold scan_last
      split
      · rename_i hc
        exact ih _ (by simpa [null_terminated] using hnt) hc.2
      · exact ⟨_, _, rfl⟩

theorem set_bucket_self (s : Store) (i : Nat) (p : hash_ptr) (h : s.KV_HashTable i = p) :
    set_bucket s i p = s := by
  cases s with
  | mk tid table =>
      simp only [set_bucket, Store.mk.injEq, true_and]
      funext j
      by_cases hj : j = i
      · subst hj
        simpa using h.symm
      · simp [hj]

/-- C7: when the bucket of the key is not empty, its chain ends in `NULL` and
holds no node with the tag of the key, a `keyvalue_set` in which the allocation
of the new node or of its buffer fails returns -1 and leaves the chain of the
bucket, and the whole store, exactly as before the call. -/
theorem append_failure_atomic (s : Store) (ukv : keyvalue_set_req) (node_ok data_ok : Bool)
    (hne : s.KV_HashTable (hashkey ukv.key) ≠ hash_ptr.NULL)
    (hnt : null_terminated (s.KV_HashTable (hashkey ukv.key)) = true)
    (habs : topbits ukv.key ∉ tags (s.KV_HashTable (hashkey ukv.key)))
    (hfail : node_ok = false ∨ data_ok = false) :
    ∃ s1 ops, keyvalue_set s ukv node_ok data_ok = Outcome.ret (-1) none s1 ops ∧
      s1.KV_HashTable (hashkey ukv.key) = s.KV_HashTable (hashkey ukv.key) ∧ s1 = s := by
  obtain ⟨passed, q, hscan⟩ := scan_last_total (topbits ukv.key) _ [] hnt hne
  obtain ⟨extra, he, -, hre, t, d, sz, nxt, hq, hlast⟩ := scan_last_spec _ _ _ _ _ hscan
  simp only [List.append_nil] at he
  subst he hq
  have htags := congrArg tags hre
  rw [tags_relink] at htags
  have ht : t ≠ topbits ukv.key := by
    intro e
    apply habs
    rw [← htags, e]
    simp [tags]
  have hnxt : nxt = hash_ptr.NULL := hlast.resolve_left ht
  subst hnxt
  have hsame : set_bucket s (hashkey ukv.key) (relink passed (hash_ptr.node t d sz hash_ptr.NULL))
      = s := set_bucket_self _ _ _ hre.symm
  unfold keyvalue_set
  rw [if_neg hne, hscan]
  simp only [if_neg ht, if_true]
  rcases hfail with hf | hf
  · subst hf
    exact ⟨_, _, rfl, by simp [hsame], hsame⟩
  · subst hf
    cases node_ok
    · exact ⟨_, _, rfl, by simp [hsame], hsame⟩
    · exact ⟨_, _, rfl, by simp [hsame], hsame⟩

/-- A run of `append_failure_atomic`: key 1024 is set in the bucket of key 0
and the buffer allocation fails. -/
theorem append_failure_atomic_witness :
    ∃ s1 ops,
      keyvalue_set ⟨3, fun j => if j = 0 then hash_ptr.node 0 [1, 2] 2 hash_ptr.NULL
          else hash_ptr.NULL⟩ ⟨1024, 1, [9]⟩ true false = Outcome.ret (-1) none s1 ops ∧
      s1.KV_HashTable (hashkey 1024) =
        (if hashkey 1024 = 0 then hash_ptr.node 0 [1, 2] 2 hash_ptr.NULL else hash_ptr.NULL) ∧
      s1 = ⟨3, fun j => if j = 0 then hash_ptr.node 0 [1, 2] 2 hash_ptr.NULL
          else hash_ptr.NULL⟩ :=
  append_failure_atomic
    ⟨3, fun j => if j = 0 then hash_ptr.node 0 [1, 2] 2 hash_ptr.NULL else hash_ptr.NULL⟩
    ⟨1024, 1, [9]⟩ true false (by decide) (by decide) (by decide) (Or.inr rfl)

/-! ## The transaction counter (C8, C9) -/

theorem keyvalue_get_ret (s s1 : Store) (key : Nat) (v : Int) (c : Option user_copy)
    (ops : List lock_op) (h : keyvalue_get s key = Outcome.ret v c s1 ops) :
    (v = -1 ∧ s1.transaction_id = s.transaction_id) ∨
    (v = Int.ofNat ((s.transaction_id + 1) % UINT_RANGE) ∧
      s1.transaction_id = (s.transaction_id + 1) % UINT_RANGE) := by
  unfold keyvalue_get at h
  repeat' split at h
  all_goals first
    | (simp at h; done)
    | (simp only [Outcome.ret.injEq] at h
       obtain ⟨h1, -, h3, -⟩ := h
       subst h1 h3
       simp [advance, set_bucket])

theorem keyvalue_set_ret (s s1 : Store) (ukv : keyvalue_set_req) (node_ok data_ok : Bool)
    (v : Int) (c : Option user_copy) (ops : List lock_op)
    (h : keyvalue_set s ukv node_ok data_ok = Outcome.ret v c s1 ops) :
    (v = -1 ∧ s1.transaction_id = s.transaction_id) ∨
    (v = Int.ofNat ((s.transaction_id + 1) % UINT_RANGE) ∧
      s1.transaction_id = (s.transaction_id + 1) % UINT_RANGE) := by
  unfold keyvalue_set at h
  repeat' split at h
  all_goals first
    | (simp at h; done)
    | (simp only [Outcome.ret.injEq] at h
       obtain ⟨h1, -, h3, -⟩ := h
       subst h1 h3
       simp [advance, set_bucket])

theorem keyvalue_delete_ret (s s1 : Store) (key : Nat) (v : Int) (c : Option user_copy)
    (ops : List lock_op) (h : keyvalue_delete s key = Outcome.ret v c s1 ops) :
    (v = -1 ∧ s1.transaction_id = s.transaction_id) ∨
    (v = Int.ofNat ((s.transaction_id + 1) % UINT_RANGE) ∧
      s1.transaction_id = (s.transaction_id + 1) % UINT_RANGE) := by
  unfold keyvalue_delete at h
  repeat' split at h
  all_goals first
    | (simp at h; done)
    | (simp only [Outcome.ret.injEq] at h
       obtain ⟨h1, -, h3, -⟩ := h
       subst h1 h3
       simp [advance, set_bucket])

/-- A call that returns either returns -1 and leaves the counter alone, or
increments the counter modulo `2 ^ 32` and returns its new value. -/
theorem call_ret (s s1 : Store) (r : request) (v : Int) (c : Option user_copy)
    (ops : List lock_op) (h : call s r = Outcome.ret v c s1 ops) :
    (v = -1 ∧ s1.transaction_id = s.transaction_id) ∨
    (v = Int.ofNat ((s.transaction_id + 1) % UINT_RANGE) ∧
      s1.transaction_id = (s.transaction_id + 1) % UINT_RANGE) := by
  cases r with
  | get key => exact keyvalue_get_ret s s1 key v c ops h
  | set ukv node_ok data_ok => exact keyvalue_set_ret s s1 ukv node_ok data_ok v c ops h
  | delete key => exact keyvalue_delete_ret s s1 key v c ops h

/-- The tokens of a run are the successive values of the counter, modulo `2 ^ 32`. -/
theorem tokens_eq (s : Store) (rs : List request) :
    tokens s rs = (List.range (tokens s rs).length).map
      (fun i => Int.ofNat ((s.transaction_id + 1 + i) % UINT_RANGE)) := by
  induction rs generalizing s with
  | nil => simp [tokens]
  | cons r rs ih =>
      unfold tokens
      split
      · rename_i v c s1 ops hcall
        rcases call_ret s s1 r v c ops hcall with ⟨hv, ht⟩ | ⟨hv, ht⟩
        · rw [if_pos hv]
          have e := ih s1
          rw [ht] at e
          exact e
        · have hv1 : v ≠ -1 := by
            rw [hv]
            simp only [Int.ofNat_eq_coe]
            omega
          rw [if_neg hv1]
          have e := ih s1
          rw [ht] at e
          simp only [List.length_cons, List.range_succ_eq_map, List.map_cons, List.map_map]
          rw [List.cons.injEq]
          refine ⟨by simpa using hv, ?_⟩
          rw [e]
          simp only [List.length_map, List.length_range]
          apply List.map_congr_left
          intro i _
          simp only [Function.comp, Int.ofNat_eq_coe, UINT_RANGE]
          omega
      · simp

/-- C8, as stated, fails where the counter wraps: from a store whose counter is
`2 ^ 32 - 2`, a successful `keyvalue_set` followed by a successful
`keyvalue_get` return the tokens `2 ^ 32 - 1` and `0`, which do not increase. -/
theorem tokens_not_increasing_at_wrap :
    tokens ⟨4294967294, fun _ => hash_ptr.NULL⟩
        [request.set ⟨0, 1, [5]⟩ true true, request.get 0] = [4294967295, 0] ∧
      ¬ (tokens ⟨4294967294, fun _ => hash_ptr.NULL⟩
        [request.set ⟨0, 1, [5]⟩ true true, request.get 0]).Pairwise (fun a b => a < b) := by
  have e : tokens ⟨4294967294, fun _ => hash_ptr.NULL⟩
      [request.set ⟨0, 1, [5]⟩ true true, request.get 0] = [4294967295, 0] := rfl
  refine ⟨e, ?_⟩
  rw [e]
  simp

/-- C8, amended: in a run of calls the tokens of the successful calls are the
successive values of the counter modulo `2 ^ 32`, each the counter after one
more increment, and they are strictly increasing in call order when the
counter does not wrap during the run. -/
theorem tokens_increasing_without_wrap (s : Store) (rs : List request) :
    tokens s rs = (List.range (tokens s rs).length).map
      (fun i => Int.ofNat ((s.transaction_id + 1 + i) % 4294967296)) ∧
    (s.transaction_id + (tokens s rs).length < 4294967296 →
      (tokens s rs).Pairwise (fun a b => a < b)) := by
  refine ⟨tokens_eq s rs, ?_⟩
  intro hlt
  rw [tokens_eq s rs, List.pairwise_map]
  refine List.Pairwise.imp_of_mem ?_ (List.pairwise_lt_range _)
  intro a b ha hb hab
  rw [List.mem_range] at ha hb
  simp only [Int.ofNat_eq_coe, UINT_RANGE]
  omega

/-- A run of `tokens_increasing_without_wrap`: a set, a failed get, a get and a
delete from the empty table return the tokens 1, 2 and 3. -/
theorem tokens_increasing_without_wrap_witness :
    tokens ⟨0, fun _ => hash_ptr.NULL⟩
        [request.set ⟨0, 1, [5]⟩ true true, request.get 1, request.get 0, request.delete 0] =
      [1, 2, 3] ∧
    (tokens ⟨0, fun _ => hash_ptr.NULL⟩
        [request.set ⟨0, 1, [5]⟩ true true, request.get 1, request.get 0,
          request.delete 0]).Pairwise (fun a b => a < b) :=
  ⟨rfl, (tokens_increasing_without_wrap ⟨0, fun _ => hash_ptr.NULL⟩
      [request.set ⟨0, 1, [5]⟩ true true, request.get 1, request.get 0,
        request.delete 0]).2 (by decide)⟩

/-- C9: a call of `keyvalue_get`, `keyvalue_set` or `keyvalue_delete` that
returns -1 leaves `transaction_id` as it was, and a call that returns another
value has incremented `transaction_id` by one (modulo `2 ^ 32`, the range of an
`unsigned`) and returns the new value. -/
theorem failed_calls_keep_counter (s s1 : Store) (r : request) (v : Int)
    (c : Option user_copy) (ops : List lock_op) (h : call s r = Outcome.ret v c s1 ops) :
    (v = -1 → s1.transaction_id = s.transaction_id) ∧
    (v ≠ -1 → s1.transaction_id = (s.transaction_id + 1) % 4294967296 ∧
      v = Int.ofNat s1.transaction_id ∧
      (s.transaction_id < 4294967295 → s1.transaction_id = s.transaction_id + 1)) := by
  rcases call_ret s s1 r v c ops h with ⟨hv, ht⟩ | ⟨hv, ht⟩
  · exact ⟨fun _ => ht, fun hne => absurd hv hne⟩
  · have hv1 : v ≠ -1 := by
      rw [hv]
      simp only [Int.ofNat_eq_coe]
      omega
    refine ⟨fun e => absurd e hv1, fun _ => ⟨ht, by rw [ht]; exact hv, ?_⟩⟩
    intro hlt
    rw [ht]
    simp only [UINT_RANGE]
    omega

/-- A run of `failed_calls_keep_counter`: a `keyvalue_delete` of a key that is
not stored returns -1 and keeps the counter 7. -/
theorem failed_calls_keep_counter_witness :
    call ⟨7, fun _ => hash_ptr.NULL⟩ (request.delete 3) =
      Outcome.ret (-1) none ⟨7, fun _ => hash_ptr.NULL⟩
        [lock_op.lock_update_lock, lock_op.unlock_update_lock] ∧
    ((-1 : Int) = -1 → (7 : Nat) = 7) ∧
    ((-1 : Int) ≠ -1 → (7 : Nat) = (7 + 1) % 4294967296 ∧ (-1 : Int) = Int.ofNat 7 ∧
      (7 < 4294967295 → (7 : Nat) = 7 + 1)) :=
  ⟨rfl, failed_calls_keep_counter ⟨7, fun _ => hash_ptr.NULL⟩ ⟨7, fun _ => hash_ptr.NULL⟩
    (request.delete 3) (-1) none [lock_op.lock_update_lock, lock_op.unlock_update_lock] rfl⟩

/-! ## Two keys of one bucket (C10) -/

/-- C10 at two failing inputs, keys 0 and 1024 of bucket 0 with the tags 0 and
1. In the empty table `keyvalue_get` of 1024 returns -1, and after a successful
`keyvalue_set` of key 0 it faults; in a table that holds only key 0,
`keyvalue_get` of 1024 faults, and after a successful `keyvalue_delete` of key 0
it returns -1. -/
theorem collision_get_differs_after_mutation :
    hashkey 0 = hashkey 1024 ∧ topbits 0 ≠ topbits 1024 ∧
    (∃ s1 tok ops1,
      keyvalue_get ⟨0, fun _ => hash_ptr.NULL⟩ 1024 =
        Outcome.ret (-1) none ⟨0, fun _ => hash_ptr.NULL⟩ [] ∧
      keyvalue_set ⟨0, fun _ => hash_ptr.NULL⟩ ⟨0, 1, [5]⟩ true true =
        Outcome.ret tok none s1 ops1 ∧ tok ≠ -1 ∧
      keyvalue_get s1 1024 = Outcome.fault [lock_op.acquire_read_lock]) ∧
    (∃ s1 tok ops1,
      keyvalue_get ⟨0, fun j => if j = 0 then hash_ptr.node 0 [5] 1 hash_ptr.NULL
          else hash_ptr.NULL⟩ 1024 = Outcome.fault [lock_op.acquire_read_lock] ∧
      keyvalue_delete ⟨0, fun j => if j = 0 then hash_ptr.node 0 [5] 1 hash_ptr.NULL
          else hash_ptr.NULL⟩ 0 = Outcome.ret tok none s1 ops1 ∧ tok ≠ -1 ∧
      keyvalue_get s1 1024 = Outcome.ret (-1) none s1 []) :=
  ⟨by decide, by decide, ⟨_, _, _, rfl, rfl, by decide, rfl⟩, ⟨_, _, _, rfl, rfl, by decide, rfl⟩⟩

/-! ## The key split is a bijection (C12) -/

theorem hashkey_eq_mod (key : Nat) : hashkey key = key % 1024 := by
  unfold hashkey HASHKEYMASK
  exact Nat.and_pow_two_sub_one_eq_mod key 10

theorem topbits_eq_div (key : Nat) (hk : key < 2 ^ 64) : topbits key = key / 1024 := by
  rw [topbits_eq_shift key hk, Nat.shiftRight_eq_div_pow]

/-- C12: for 64-bit keys the bucket index `k & 0x3ff` is below 1024, the size of
the table, the tag `(k & 0xfffffffffffffc00) >> 10` is below `2 ^ 54`, the key is
`tag * 1024 + bucket_index`, and two keys have the same bucket index and the
same tag exactly when they are equal. -/
theorem key_split_bijection (k1 k2 : Nat) (h1 : k1 < 2 ^ 64) (h2 : k2 < 2 ^ 64) :
    (hashkey k1 = k1 &&& 0x3ff ∧ hashkey k1 < HASHTABLESIZE ∧
      topbits k1 = (k1 &&& 0xfffffffffffffc00) >>> 10 ∧ topbits k1 < 2 ^ 54 ∧
      k1 = topbits k1 * 1024 + hashkey k1) ∧
    ((hashkey k1 = hashkey k2 ∧ topbits k1 = topbits k2) ↔ k1 = k2) := by
  have e1 := hashkey_eq_mod k1
  have e2 := hashkey_eq_mod k2
  have d1 := topbits_eq_div k1 h1
  have d2 := topbits_eq_div k2 h2
  refine ⟨⟨rfl, ?_, rfl, ?_, ?_⟩, ?_⟩
  · rw [e1, HASHTABLESIZE]
    omega
  · rw [d1]
    omega
  · rw [e1, d1]
    omega
  · constructor
    · rintro ⟨ha, hb⟩
      rw [e1, e2] at ha
      rw [d1, d2] at hb
      omega
    · intro e
      subst e
      exact ⟨rfl, rfl⟩

/-- A run of `key_split_bijection`: the keys 5 and 1029 share bucket 5 and
differ in the tag. -/
theorem key_split_bijection_witness :
    (hashkey 5 = 5 &&& 0x3ff ∧ hashkey 5 < HASHTABLESIZE ∧
      topbits 5 = (5 &&& 0xfffffffffffffc00) >>> 10 ∧ topbits 5 < 2 ^ 54 ∧
      5 = topbits 5 * 1024 + hashkey 5) ∧
    ((hashkey 5 = hashkey 1029 ∧ topbits 5 = topbits 1029) ↔ 5 = 1029) :=
  key_split_bijection 5 1029 (by decide) (by decide)

/-! ## Get and delete in the empty table (C13) -/

/-- C13: in a store whose buckets are all empty, the initial store among them,
`keyvalue_get` and `keyvalue_delete` of any key return -1 and leave the store as
it was: every bucket empty and `transaction_id` unchanged. -/
theorem empty_store_get_delete (tid key : Nat) :
    keyvalue_get ⟨tid, fun _ => hash_ptr.NULL⟩ key =
      Outcome.ret (-1) none ⟨tid, fun _ => hash_ptr.NULL⟩ [] ∧
    keyvalue_delete ⟨tid, fun _ => hash_ptr.NULL⟩ key =
      Outcome.ret (-1) none ⟨tid, fun _ => hash_ptr.NULL⟩
        [lock_op.lock_update_lock, lock_op.unlock_update_lock] ∧
    keyvalue_get initial_store key = Outcome.ret (-1) none initial_store [] ∧
    keyvalue_delete initial_store key =
      Outcome.ret (-1) none initial_store
        [lock_op.lock_update_lock, lock_op.unlock_update_lock] ∧
    (∀ j, initial_store.KV_HashTable j = hash_ptr.NULL) ∧ initial_store.transaction_id = 0 := by
  refine ⟨?_, ?_, ?_, ?_, fun _ => rfl, rfl⟩ <;> simp [keyvalue_get, keyvalue_delete, initial_store]

/-! ## Frame lemmas -/

/-- A `keyvalue_get` that returns leaves the store alone and returns -1, or only
increments the counter. -/
theorem keyvalue_get_store (s s1 : Store) (key : Nat) (v : Int) (c : Option user_copy)
    (ops : List lock_op) (h : keyvalue_get s key = Outcome.ret v c s1 ops) :
    (v = -1 ∧ s1 = s) ∨ (v ≠ -1 ∧ s1 = advance s) := by
  unfold keyvalue_get at h
  repeat' split at h
  all_goals first
    | (simp at h; done)
    | (simp only [Outcome.ret.injEq] at h
       obtain ⟨h1, -, h3, -⟩ := h
       subst h1 h3
       first
         | exact Or.inl ⟨rfl, rfl⟩
         | (refine Or.inr ⟨?_, rfl⟩
            simp only [Int.ofNat_eq_coe]
            omega))

/-- A `keyvalue_set` that returns has written to no other bucket than that of
its key. -/
theorem keyvalue_set_frame (s s1 : Store) (ukv : keyvalue_set_req) (node_ok data_ok : Bool)
    (v : Int) (c : Option user_copy) (ops : List lock_op)
    (h : keyvalue_set s ukv node_ok data_ok = Outcome.ret v c s1 ops) (j : Nat)
    (hj : j ≠ hashkey ukv.key) : s1.KV_HashTable j = s.KV_HashTable j := by
  unfold keyvalue_set at h
  repeat' split at h
  all_goals first
    | (simp at h; done)
    | (simp only [Outcome.ret.injEq] at h
       obtain ⟨-, -, h3, -⟩ := h
       subst h3
       simp [advance, set_bucket, hj])

/-- A `keyvalue_delete` that returns has written to no other bucket than that
of its key. -/
theorem keyvalue_delete_frame (s s1 : Store) (key : Nat) (v : Int) (c : Option user_copy)
    (ops : List lock_op) (h : keyvalue_delete s key = Outcome.ret v c s1 ops) (j : Nat)
    (hj : j ≠ hashkey key) : s1.KV_HashTable j = s.KV_HashTable j := by
  unfold keyvalue_delete at h
  repeat' split at h
  all_goals first
    | (simp at h; done)
    | (simp only [Outcome.ret.injEq] at h
       obtain ⟨-, -, h3, -⟩ := h
       subst h3
       simp [advance, set_bucket, hj])

/-- A `keyvalue_delete` that returns either returns -1 and leaves the store
alone, or has unlinked from the chain the first node with the tag, found behind
nodes that carry other tags. -/
theorem keyvalue_delete_cases (s s1 : Store) (key : Nat) (v : Int) (c : Option user_copy)
    (ops : List lock_op) (h : keyvalue_delete s key = Outcome.ret v c s1 ops) :
    (v = -1 ∧ s1 = s) ∨
    (v ≠ -1 ∧ ∃ passed d sz nxt, (∀ x ∈ passed, x.1 ≠ topbits key) ∧
      s.KV_HashTable (hashkey key) = relink passed (hash_ptr.node (topbits key) d sz nxt) ∧
      s1 = advance (set_bucket s (hashkey key) (relink passed nxt))) := by
  unfold keyvalue_delete at h
  split at h
  · simp only [Outcome.ret.injEq] at h
    exact Or.inl ⟨h.1.symm, h.2.2.1.symm⟩
  · split at h
    · simp at h
    · simp at h
    · simp at h
    · rename_i passed t d sz nxt hscan
      obtain ⟨extra, he, hall, hre, -⟩ := scan_last_spec _ _ _ _ _ hscan
      simp only [List.append_nil] at he
      subst he
      split at h
      · rename_i ht
        subst ht
        have hv : ∀ n : Nat, (Int.ofNat n) ≠ -1 := by
          intro n
          simp only [Int.ofNat_eq_coe]
          omega
        split at h
        · simp only [Outcome.ret.injEq] at h
          obtain ⟨h1, -, h3, -⟩ := h
          exact Or.inr ⟨h1 ▸ hv _, [], d, sz, nxt, hall, hre.symm, h3.symm⟩
        · rename_i pt pd psz before
          simp only [Outcome.ret.injEq] at h
          obtain ⟨h1, -, h3, -⟩ := h
          exact Or.inr ⟨h1 ▸ hv _, (pt, pd, psz) :: before, d, sz, nxt, hall, hre.symm, h3.symm⟩
      · split at h
        · simp only [Outcome.ret.injEq] at h
          exact Or.inl ⟨h.1.symm, h.2.2.1.symm⟩
        · simp only [Outcome.ret.injEq] at h
          exact Or.inl ⟨h.1.symm, h.2.2.1.symm⟩

/-! ## The distinct-tags invariant (C11) -/

theorem ofNat_ne_neg_one (n : Nat) : Int.ofNat n ≠ -1 := by
  simp only [Int.ofNat_eq_coe]
  omega

theorem set_bucket_at (s : Store) (i : Nat) (p : hash_ptr) :
    (set_bucket s i p).KV_HashTable i = p := by
  simp [set_bucket]

/-- A `keyvalue_set` that returns -1 leaves in the bucket a chain with the tags
it had, or no live node at all. -/
theorem keyvalue_set_failure_tags (s s1 : Store) (ukv : keyvalue_set_req)
    (node_ok data_ok : Bool) (c : Option user_copy) (ops : List lock_op)
    (h : keyvalue_set s ukv node_ok data_ok = Outcome.ret (-1) c s1 ops) :
    tags (s1.KV_HashTable (hashkey ukv.key)) = tags (s.KV_HashTable (hashkey ukv.key)) ∨
    tags (s1.KV_HashTable (hashkey ukv.key)) = [] := by
  unfold keyvalue_set at h
  split at h
  · split at h
    · simp only [Outcome.ret.injEq] at h
      obtain ⟨-, -, h3, -⟩ := h
      subst h3
      exact Or.inr (by rw [set_bucket_at]; rfl)
    split at h
    · simp only [Outcome.ret.injEq] at h
      obtain ⟨-, -, h3, -⟩ := h
      subst h3
      exact Or.inr (by rw [set_bucket_at]; rfl)
    split at h
    · simp at h
    · simp only [Outcome.ret.injEq] at h
      exact absurd h.1 (ofNat_ne_neg_one _)
  · split at h
    · simp at h
    · simp at h
    · simp at h
    · rename_i passed t d sz nxt hscan
      obtain ⟨extra, he, -, hre, -⟩ := scan_last_spec _ _ _ _ _ hscan
      simp only [List.append_nil] at he
      subst he
      have hold : tags (s.KV_HashTable (hashkey ukv.key)) =
          (passed.map (fun x => x.1)).reverse ++ t :: tags nxt := by
        rw [← hre, tags_relink]
        rfl
      split at h
      · split at h
        · simp only [Outcome.ret.injEq] at h
          obtain ⟨-, -, h3, -⟩ := h
          subst h3
          left
          rw [set_bucket_at, tags_relink, hold]
          rfl
        split at h
        · simp at h
        · simp only [Outcome.ret.injEq] at h
          exact absurd h.1 (ofNat_ne_neg_one _)
      · split at h
        · rename_i hnxt
          subst hnxt
          split at h
          · simp only [Outcome.ret.injEq] at h
            obtain ⟨-, -, h3, -⟩ := h
            subst h3
            left
            rw [set_bucket_at, hre]
          split at h
          · simp only [Outcome.ret.injEq] at h
            obtain ⟨-, -, h3, -⟩ := h
            subst h3
            left
            rw [set_bucket_at, hre]
          split at h
          · simp at h
          · simp only [Outcome.ret.injEq] at h
            exact absurd h.1 (ofNat_ne_neg_one _)
        · simp only [Outcome.ret.injEq] at h
          obtain ⟨-, -, h3, -⟩ := h
          subst h3
          exact Or.inl rfl

/-- Every `keyvalue_set` that returns keeps the tags of the bucket's chain
pairwise distinct. -/
theorem keyvalue_set_nodup (s s1 : Store) (ukv : keyvalue_set_req) (node_ok data_ok : Bool)
    (v : Int) (c : Option user_copy) (ops : List lock_op)
    (h : keyvalue_set s ukv node_ok data_ok = Outcome.ret v c s1 ops)
    (hinv : (tags (s.KV_HashTable (hashkey ukv.key))).Nodup) :
    (tags (s1.KV_HashTable (hashkey ukv.key))).Nodup := by
  by_cases hv : v = -1
  · subst hv
    rcases keyvalue_set_failure_tags s s1 ukv node_ok data_ok c ops h with e | e
    · rw [e]
      exact hinv
    · rw [e]
      exact List.nodup_nil
  · rw [keyvalue_set_tags s s1 ukv node_ok data_ok v c ops h hv]
    split
    · exact hinv
    · rename_i hno
      exact List.Nodup.append hinv (List.nodup_singleton _) (by simpa using hno)

/-- Every `keyvalue_delete` that returns keeps the tags of the bucket's chain
pairwise distinct. -/
theorem keyvalue_delete_nodup (s s1 : Store) (key : Nat) (v : Int) (c : Option user_copy)
    (ops : List lock_op) (h : keyvalue_delete s key = Outcome.ret v c s1 ops)
    (hinv : (tags (s.KV_HashTable (hashkey key))).Nodup) :
    (tags (s1.KV_HashTable (hashkey key))).Nodup := by
  rcases keyvalue_delete_cases s s1 key v c ops h with ⟨-, e⟩ | ⟨-, passed, d, sz, nxt, -, hold, e⟩
  · rw [e]
    exact hinv
  · rw [e, set_bucket_same, tags_relink]
    rw [hold, tags_relink] at hinv
    simp only [tags] at hinv
    refine List.Nodup.sublist ?_ hinv
    exact List.Sublist.append_left (List.sublist_cons_self _ _) _

/-- Every call that returns keeps the tags of every chain pairwise distinct. -/
theorem call_distinct_tags (s s1 : Store) (r : request) (v : Int) (c : Option user_copy)
    (ops : List lock_op) (h : call s r = Outcome.ret v c s1 ops) (hinv : distinct_tags s) :
    distinct_tags s1 := by
  intro j
  cases r with
  | get key =>
      rcases keyvalue_get_store s s1 key v c ops h with ⟨-, e⟩ | ⟨-, e⟩
      · rw [e]
        exact hinv j
      · rw [e]
        exact hinv j
  | set ukv node_ok data_ok =>
      by_cases hj : j = hashkey ukv.key
      · subst hj
        exact keyvalue_set_nodup s s1 ukv node_ok data_ok v c ops h (hinv _)
      · rw [keyvalue_set_frame s s1 ukv node_ok data_ok v c ops h j hj]
        exact hinv j
  | delete key =>
      by_cases hj : j = hashkey key
      · subst hj
        exact keyvalue_delete_nodup s s1 key v c ops h (hinv _)
      · rw [keyvalue_delete_frame s s1 key v c ops h j hj]
        exact hinv j

theorem run_calls_distinct_tags (rs : List request) (s s1 : Store)
    (h : run_calls s rs = some s1) (hinv : distinct_tags s) : distinct_tags s1 := by
  induction rs generalizing s with
  | nil =>
      simp only [run_calls, Option.some.injEq] at h
      subst h
      exact hinv
  | cons r rs ih =>
      unfold run_calls at h
      split at h
      · rename_i v c s2 ops hcall
        exact ih s2 h (call_distinct_tags s s2 r v c ops hcall hinv)
      · simp at h

/-- C11: the tags of every bucket's chain are pairwise distinct in the initial
store, every `keyvalue_set` (on each success and failure path), every
`keyvalue_delete` and every `keyvalue_get` that returns keeps them so, and they
are so in every store that a sequence of calls reaches from the initial store. -/
theorem distinct_tags_invariant :
    distinct_tags initial_store ∧
    (∀ s s1 r v c ops, distinct_tags s → call s r = Outcome.ret v c s1 ops →
      distinct_tags s1) ∧
    (∀ rs s, run_calls initial_store rs = some s → distinct_tags s) := by
  have h0 : distinct_tags initial_store := fun _ => List.nodup_nil
  exact ⟨h0, fun s s1 r v c ops hinv h => call_distinct_tags s s1 r v c ops h hinv,
    fun rs s h => run_calls_distinct_tags rs initial_store s h h0⟩

/-- A run of `distinct_tags_invariant`: keys 0 and 1024 are set in bucket 0, key
0 is overwritten, and a set of key 2048 fails. -/
theorem distinct_tags_invariant_witness :
    ∃ s, run_calls initial_store
        [request.set ⟨0, 1, [5]⟩ true true, request.set ⟨1024, 1, [6]⟩ true true,
          request.set ⟨0, 2, [7, 8]⟩ true true, request.set ⟨2048, 1, [9]⟩ true false] =
        some s ∧
      tags (s.KV_HashTable 0) = [0, 1] ∧ distinct_tags s :=
  ⟨_, rfl, rfl, distinct_tags_invariant.2.2
    [request.set ⟨0, 1, [5]⟩ true true, request.set ⟨1024, 1, [6]⟩ true true,
      request.set ⟨0, 2, [7, 8]⟩ true true, request.set ⟨2048, 1, [9]⟩ true false] _ rfl⟩

/-! ## Mutual exclusion of the gate (C14) -/

theorem acquire_read_lock_inv (g g1 : gate_state) (t : Nat)
    (h : acquire_read_lock g t = some g1) (hinv : gate_inv g) : gate_inv g1 := by
  obtain ⟨r, l, ar, aw⟩ := g
  obtain ⟨hr, hl⟩ := hinv
  simp only at hr hl
  unfold acquire_read_lock at h
  simp only at h
  split at h
  · rename_i h1
    split at h
    · rename_i h0
      subst h0
      simp only [Option.some.injEq] at h
      subst h
      refine ⟨by simp only [List.length_cons]; omega, ?_⟩
      simp only at hl ⊢
      exact ⟨by simp, hl.2⟩
    · simp at h
  · rename_i h1
    simp only [Option.some.injEq] at h
    subst h
    refine ⟨by simp only [List.length_cons]; omega, ?_⟩
    have hne : ar ≠ [] := by
      intro e
      subst e
      simp at hr
      omega
    cases l with
    | none => exact absurd hl.1 hne
    | some x =>
        cases x with
        | readers => exact ⟨by simp, hl.2⟩
        | writer w => exact absurd hl.1 hne

theorem release_read_lock_inv (g g1 : gate_state) (t : Nat)
    (h : release_read_lock g t = some g1) (hinv : gate_inv g) : gate_inv g1 := by
  obtain ⟨r, l, ar, aw⟩ := g
  obtain ⟨hr, hl⟩ := hinv
  simp only at hr hl
  unfold release_read_lock at h
  simp only at h
  split at h
  · rename_i hmem
    have hne : ar ≠ [] := List.ne_nil_of_mem hmem
    have hlen : (ar.erase t).length = ar.length - 1 := List.length_erase_of_mem hmem
    have hpos : 0 < ar.length := List.length_pos.mpr hne
    have haw : aw = [] := by
      cases l with
      | none => exact hl.2
      | some x =>
          cases x with
          | readers => exact hl.2
          | writer w => exact absurd hl.1 hne
    have hlk : l = some lock_holder.readers := by
      cases l with
      | none => exact absurd hl.1 hne
      | some x =>
          cases x with
          | readers => rfl
          | writer w => exact absurd hl.1 hne
    subst hlk haw
    split at h
    · rename_i h0
      simp only [Option.some.injEq] at h
      subst h
      refine ⟨by simp only [hlen]; omega, ?_⟩
      have hz : (ar.erase t).length = 0 := by omega
      exact ⟨List.length_eq_zero.mp hz, rfl⟩
    · rename_i h0
      simp only [Option.some.injEq] at h
      subst h
      refine ⟨by simp only [hlen]; omega, ?_⟩
      have hz : (ar.erase t).length ≠ 0 := by omega
      exact ⟨fun e => hz (List.length_eq_zero.mpr e), rfl⟩
  · simp at h

theorem writer_lock_inv (g g1 : gate_state) (t : Nat)
    (h : writer_lock g t = some g1) (hinv : gate_inv g) : gate_inv g1 := by
  obtain ⟨r, l, ar, aw⟩ := g
  obtain ⟨hr, hl⟩ := hinv
  simp only at hr hl
  unfold writer_lock at h
  simp only at h
  split at h
  · rename_i h0
    subst h0
    simp only [Option.some.injEq] at h
    subst h
    simp only at hl
    exact ⟨hr, hl.1, by rw [hl.2]⟩
  · simp at h

theorem writer_unlock_inv (g g1 : gate_state) (t : Nat)
    (h : writer_unlock g t = some g1) (hinv : gate_inv g) : gate_inv g1 := by
  obtain ⟨r, l, ar, aw⟩ := g
  obtain ⟨hr, hl⟩ := hinv
  simp only at hr hl
  unfold writer_unlock at h
  simp only at h
  split at h
  · rename_i hmem
    simp only [Option.some.injEq] at h
    subst h
    have hne : aw ≠ [] := List.ne_nil_of_mem hmem
    cases l with
    | none => exact absurd hl.2 hne
    | some x =>
        cases x with
        | readers => exact absurd hl.2 hne
        | writer w =>
            simp only at hl
            obtain ⟨h1, h2⟩ := hl
            subst h2
            have e : t = w := by simpa using hmem
            subst e
            exact ⟨hr, h1, by simp⟩
  · simp at h

theorem gate_step_inv (g g1 : gate_state) (a : gate_action)
    (h : gate_step g a = some g1) (hinv : gate_inv g) : gate_inv g1 := by
  cases a with
  | acquire_read t => exact acquire_read_lock_inv g g1 t h hinv
  | release_read t => exact release_read_lock_inv g g1 t h hinv
  | lock_write t => exact writer_lock_inv g g1 t h hinv
  | unlock_write t => exact writer_unlock_inv g g1 t h hinv

theorem gate_run_inv (acts : List gate_action) (g g1 : gate_state)
    (h : gate_run g acts = some g1) (hinv : gate_inv g) : gate_inv g1 := by
  induction acts generalizing g with
  | nil =>
      simp only [gate_run, Option.some.injEq] at h
      subst h
      exact hinv
  | cons a acts ih =>
      unfold gate_run at h
      split at h
      · rename_i g2 hstep
        exact ih g2 h (gate_step_inv g g2 a hstep hinv)
      · simp at h

theorem gate_init_inv : gate_inv gate_init := ⟨rfl, rfl, rfl⟩

/-- Once a reader is active, any further threads can take the read lock. -/
theorem gate_run_more_readers (ts : List Nat) (g : gate_state) (h : 1 ≤ g.readers) :
    gate_run g (ts.map gate_action.acquire_read) =
      some ⟨g.readers + ts.length, g.update_lock, ts.reverse ++ g.active_readers,
        g.active_writers⟩ := by
  induction ts generalizing g with
  | nil => simp [gate_run]
  | cons t ts ih =>
      have hne : ¬ (g.readers + 1 = 1) := by omega
      simp only [List.map_cons, gate_run, gate_step, acquire_read_lock, if_neg hne]
      rw [ih _ (by simp only; omega)]
      simp only [List.length_cons, List.reverse_cons, List.append_assoc, List.singleton_append,
        Nat.cast_add, Nat.cast_one, Option.some.injEq, gate_state.mk.injEq, and_true, true_and]
      omega

/-- From the initial gate any list of threads can take the read lock one after
the other and be active together. -/
theorem gate_run_readers (ts : List Nat) :
    gate_run gate_init (ts.map gate_action.acquire_read) =
      some ⟨ts.length, if ts = [] then none else some lock_holder.readers, ts.reverse, []⟩ := by
  cases ts with
  | nil => rfl
  | cons t ts =>
      simp only [List.map_cons, gate_run, gate_step, acquire_read_lock, gate_init]
      simp only [zero_add, if_true]
      rw [gate_run_more_readers ts _ (by simp)]
      simp only [List.length_cons, List.reverse_cons, Nat.cast_add, Nat.cast_one,
        Option.some.injEq, gate_state.mk.injEq, and_true, reduceCtorEq, if_false, true_and]
      omega

/-- C14: in the state machine of the gate, every state reached from the initial
state by enabled steps has at most one active writer and has no active writer
while `readers > 0` or while a reader is active; and any list of threads can be
active readers together. -/
theorem gate_mutual_exclusion :
    (∀ acts g, gate_run gate_init acts = some g →
      g.active_writers.length ≤ 1 ∧ ¬ (g.active_writers ≠ [] ∧ 0 < g.readers) ∧
      ¬ (g.active_writers ≠ [] ∧ g.active_readers ≠ [])) ∧
    (∀ ts : List Nat, ∃ g, gate_run gate_init (ts.map gate_action.acquire_read) = some g ∧
      g.active_readers = ts.reverse ∧ g.readers = ts.length ∧ g.active_writers = []) := by
  constructor
  · intro acts g h
    obtain ⟨hr, hl⟩ := gate_run_inv acts gate_init g h gate_init_inv
    obtain ⟨r, l, ar, aw⟩ := g
    simp only at hr hl ⊢
    cases l with
    | none =>
        obtain ⟨h1, h2⟩ := hl
        subst h1 h2
        simp
    | some x =>
        cases x with
        | readers =>
            obtain ⟨h1, h2⟩ := hl
            subst h2
            simp
        | writer w =>
            obtain ⟨h1, h2⟩ := hl
            subst h1 h2
            subst hr
            simp
  · intro ts
    exact ⟨_, gate_run_readers ts, rfl, rfl, rfl⟩

/-- A run of `gate_mutual_exclusion`: two readers come and go, then a writer
takes the lock; a second writer and a reader are then not enabled. -/
theorem gate_mutual_exclusion_witness :
    gate_run gate_init
        [gate_action.acquire_read 1, gate_action.acquire_read 2, gate_action.release_read 1,
          gate_action.release_read 2, gate_action.lock_write 3] =
      some ⟨0, some (lock_holder.writer 3), [], [3]⟩ ∧
    gate_step ⟨0, some (lock_holder.writer 3), [], [3]⟩ (gate_action.lock_write 4) = none ∧
    gate_step ⟨0, some (lock_holder.writer 3), [], [3]⟩ (gate_action.acquire_read 5) = none ∧
    ([3] : List Nat).length ≤ 1 ∧ ¬ (([3] : List Nat) ≠ [] ∧ (0 : Int) < 0) ∧
    ¬ (([3] : List Nat) ≠ [] ∧ ([] : List Nat) ≠ []) :=
  ⟨by decide, by decide, by decide,
    gate_mutual_exclusion.1
      [gate_action.acquire_read 1, gate_action.acquire_read 2, gate_action.release_read 1,
        gate_action.release_read 2, gate_action.lock_write 3]
      ⟨0, some (lock_holder.writer 3), [], [3]⟩ (by decide)⟩

/-! ## The gate in each call (C15) -/

/-- C15 at a failing input: in the initial store `keyvalue_get` of key 7 reads
the slot of bucket 7, finds it `NULL` and returns -1 without a single lock
operation, so without entering or leaving the gate; when the slot holds the key
the same test lets the call go on, and only then does it take the read lock. -/
theorem get_reads_slot_outside_gate :
    keyvalue_get initial_store 7 = Outcome.ret (-1) none initial_store [] ∧
    keyvalue_get ⟨0, fun j => if j = 7 then hash_ptr.node 0 [5] 1 hash_ptr.NULL
        else hash_ptr.NULL⟩ 7 =
      Outcome.ret 1 (some ⟨1, [5]⟩)
        ⟨1, fun j => if j = 7 then hash_ptr.node 0 [5] 1 hash_ptr.NULL else hash_ptr.NULL⟩
        [lock_op.acquire_read_lock, lock_op.release_read_lock, lock_op.lock_transaction_lock,
          lock_op.unlock_transaction_lock] :=
  ⟨rfl, rfl⟩

/-- Every `keyvalue_set` and `keyvalue_delete` that returns has taken
`update_lock` first and released it once, before any use of `transaction_lock`. -/
theorem set_delete_lock_ops (s s1 : Store) (r : request) (v : Int) (c : Option user_copy)
    (ops : List lock_op) (h : call s r = Outcome.ret v c s1 ops)
    (hr : ∀ key, r ≠ request.get key) :
    ops = [lock_op.lock_update_lock, lock_op.unlock_update_lock] ∨
    ops = [lock_op.lock_update_lock, lock_op.unlock_update_lock,
      lock_op.lock_transaction_lock, lock_op.unlock_transaction_lock] := by
  cases r with
  | get key => exact absurd rfl (hr key)
  | set ukv node_ok data_ok =>
      simp only [call] at h
      unfold keyvalue_set at h
      repeat' split at h
      all_goals first
        | (simp at h; done)
        | (simp only [Outcome.ret.injEq] at h
           obtain ⟨-, -, -, h4⟩ := h
           subst h4
           simp)
  | delete key =>
      simp only [call] at h
      unfold keyvalue_delete at h
      repeat' split at h
      all_goals first
        | (simp at h; done)
        | (simp only [Outcome.ret.injEq] at h
           obtain ⟨-, -, -, h4⟩ := h
           subst h4
           simp)

/-! ## The scan ends at the tag or at the last node (C16) -/

/-- C16: when the chain of the bucket is a list of live nodes that ends in
`NULL`, either the bucket is empty and no scan is made, or the scan of
`keyvalue_set` and `keyvalue_delete` ends at a live node that carries the
searched tag or whose `next` is `NULL`; the condition of the final
`else` branch of the two calls is then false. -/
theorem scan_ends_at_tag_or_last (s : Store) (key : Nat)
    (hnt : null_terminated (s.KV_HashTable (hashkey key)) = true) :
    s.KV_HashTable (hashkey key) = hash_ptr.NULL ∨
    ∃ passed t d sz nxt,
      scan_last (topbits key) [] (s.KV_HashTable (hashkey key)) =
        some (passed, hash_ptr.node t d sz nxt) ∧
      (t = topbits key ∨ nxt = hash_ptr.NULL) ∧
      ¬ (¬ t = topbits key ∧ ¬ nxt = hash_ptr.NULL) := by
  by_cases hne : s.KV_HashTable (hashkey key) = hash_ptr.NULL
  · exact Or.inl hne
  · right
    obtain ⟨passed, q, hscan⟩ := scan_last_total (topbits key) _ [] hnt hne
    obtain ⟨-, -, -, -, t, d, sz, nxt, hq, hlast⟩ := scan_last_spec _ _ _ _ _ hscan
    subst hq
    refine ⟨passed, t, d, sz, nxt, hscan, hlast, ?_⟩
    rintro ⟨h1, h2⟩
    rcases hlast with e | e
    · exact h1 e
    · exact h2 e

/-- A run of `scan_ends_at_tag_or_last`: the scan for key 2048 in a bucket that
holds the keys 0 and 1024 ends at the last node. -/
theorem scan_ends_at_tag_or_last_witness :
    (if hashkey 2048 = 0 then hash_ptr.node 0 [5] 1 (hash_ptr.node 1 [6] 1 hash_ptr.NULL)
      else hash_ptr.NULL) = hash_ptr.NULL ∨
    ∃ passed t d sz nxt,
      scan_last (topbits 2048) []
          (if hashkey 2048 = 0 then hash_ptr.node 0 [5] 1 (hash_ptr.node 1 [6] 1 hash_ptr.NULL)
            else hash_ptr.NULL) =
        some (passed, hash_ptr.node t d sz nxt) ∧
      (t = topbits 2048 ∨ nxt = hash_ptr.NULL) ∧
      ¬ (¬ t = topbits 2048 ∧ ¬ nxt = hash_ptr.NULL) :=
  scan_ends_at_tag_or_last
    ⟨0, fun j => if j = 0 then hash_ptr.node 0 [5] 1 (hash_ptr.node 1 [6] 1 hash_ptr.NULL)
      else hash_ptr.NULL⟩ 2048 (by decide)

/-! ## Delete is a splice (C17) -/

/-- When a node of the chain carries the tag, the scan of `keyvalue_delete`
ends at a node with the tag. -/
theorem scan_last_present (tb : Nat) (p : hash_ptr) (passed : List passed_node)
    (h : tb ∈ tags p) :
    ∃ passed1 d sz nxt, scan_last tb passed p = some (passed1, hash_ptr.node tb d sz nxt) := by
  induction p generalizing passed with
  | NULL => simp [tags] at h
  | freed => simp [tags] at h
  | node t d sz nxt ih =>
      unfold scan_last
      split
      · rename_i hc
        simp only [tags, List.mem_cons] at h
        rcases h with e | e
        · exact absurd e.symm hc.1
        · exact ih _ e
      · rename_i hc
        simp only [tags, List.mem_cons] at h
        by_cases ht : t = tb
        · subst ht
          exact ⟨_, _, _, _, rfl⟩
        · have hnxt : nxt = hash_ptr.NULL := by
            by_contra hn
            exact hc ⟨ht, hn⟩
          subst hnxt
          rcases h with e | e
          · exact absurd e.symm ht
          · simp [tags] at e

/-- Removing the first node with the tag commutes with relinking nodes that
carry other tags. -/
theorem chain_remove_first_relink (tb : Nat) (passed : List passed_node) (q : hash_ptr)
    (h : ∀ x ∈ passed, x.1 ≠ tb) :
    chain_remove_first tb (relink passed q) = relink passed (chain_remove_first tb q) := by
  induction passed generalizing q with
  | nil => rfl
  | cons x passed ih =>
      obtain ⟨t, d, sz⟩ := x
      have ht : t ≠ tb := h (t, d, sz) (List.mem_cons_self _ _)
      have hrest : ∀ x ∈ passed, x.1 ≠ tb := fun x hx => h x (List.mem_cons_of_mem _ hx)
      simp only [relink]
      rw [ih _ hrest]
      simp [chain_remove_first, ht]

/-- C17: when the chain of the bucket holds a node with the tag of the key,
`keyvalue_delete` succeeds and leaves the chain without its first such node, all
other nodes in place with their fields (the bucket is empty when that node was
the only one); when the chain ends in `NULL` and holds no such node,
`keyvalue_delete` returns -1 and leaves the store as it was. -/
theorem delete_is_exact_splice (s : Store) (key : Nat) :
    (topbits key ∈ tags (s.KV_HashTable (hashkey key)) →
      ∃ tok s1 ops, keyvalue_delete s key = Outcome.ret tok none s1 ops ∧ tok ≠ -1 ∧
        s1.KV_HashTable (hashkey key) =
          chain_remove_first (topbits key) (s.KV_HashTable (hashkey key))) ∧
    (null_terminated (s.KV_HashTable (hashkey key)) = true →
      topbits key ∉ tags (s.KV_HashTable (hashkey key)) →
      ∃ ops, keyvalue_delete s key = Outcome.ret (-1) none s ops) := by
  constructor
  · intro hmem
    obtain ⟨passed, d, sz, nxt, hscan⟩ := scan_last_present _ _ [] hmem
    obtain ⟨extra, he, hall, hre, -⟩ := scan_last_spec _ _ _ _ _ hscan
    simp only [List.append_nil] at he
    subst he
    have hne : s.KV_HashTable (hashkey key) ≠ hash_ptr.NULL := by
      intro e
      rw [e] at hmem
      simp [tags] at hmem
    have hsplice : chain_remove_first (topbits key) (s.KV_HashTable (hashkey key)) =
        relink passed nxt := by
      rw [← hre, chain_remove_first_relink _ _ _ hall]
      simp [chain_remove_first]
    unfold keyvalue_delete
    rw [if_neg hne, hscan]
    simp only [if_true]
    cases passed with
    | nil =>
        refine ⟨_, _, _, rfl, ofNat_ne_neg_one _, ?_⟩
        rw [set_bucket_same, hsplice]
        rfl
    | cons x before =>
        obtain ⟨pt, pd, psz⟩ := x
        refine ⟨_, _, _, rfl, ofNat_ne_neg_one _, ?_⟩
        rw [set_bucket_same, hsplice]
        rfl
  · intro hnt habs
    by_cases hne : s.KV_HashTable (hashkey key) = hash_ptr.NULL
    · unfold keyvalue_delete
      rw [if_pos hne]
      exact ⟨_, rfl⟩
    · obtain ⟨passed, q, hscan⟩ := scan_last_total (topbits key) _ [] hnt hne
      obtain ⟨extra, he, -, hre, t, d, sz, nxt, hq, hlast⟩ := scan_last_spec _ _ _ _ _ hscan
      simp only [List.append_nil] at he
      subst he hq
      have htags := congrArg tags hre
      rw [tags_relink] at htags
      have ht : t ≠ topbits key := by
        intro e
        apply habs
        rw [← htags, e]
        simp [tags]
      have hnxt : nxt = hash_ptr.NULL := hlast.resolve_left ht
      subst hnxt
      unfold keyvalue_delete
      rw [if_neg hne, hscan]
      simp only [if_neg ht, if_true]
      exact ⟨_, rfl⟩

/-- A run of `delete_is_exact_splice`: key 1024 is deleted from the middle of a
chain that holds the keys 0, 1024 and 2048. -/
theorem delete_is_exact_splice_witness :
    ∃ tok s1 ops,
      keyvalue_delete ⟨0, fun j => if j = 0 then
          hash_ptr.node 0 [5] 1 (hash_ptr.node 1 [6] 1 (hash_ptr.node 2 [7] 1 hash_ptr.NULL))
          else hash_ptr.NULL⟩ 1024 = Outcome.ret tok none s1 ops ∧ tok ≠ -1 ∧
      s1.KV_HashTable (hashkey 1024) =
        chain_remove_first (topbits 1024)
          (if hashkey 1024 = 0 then
            hash_ptr.node 0 [5] 1 (hash_ptr.node 1 [6] 1 (hash_ptr.node 2 [7] 1 hash_ptr.NULL))
            else hash_ptr.NULL) :=
  (delete_is_exact_splice ⟨0, fun j => if j = 0 then
      hash_ptr.node 0 [5] 1 (hash_ptr.node 1 [6] 1 (hash_ptr.node 2 [7] 1 hash_ptr.NULL))
      else hash_ptr.NULL⟩ 1024).1 (by decide)

/-! ## Other buckets and the read-only get (C18, C19) -/

/-- C18: a `keyvalue_set` (whatever the payload and the allocation outcomes) and
a `keyvalue_delete` that return leave the chain of every bucket other than
`key & 0x3ff` exactly as it was. -/
theorem other_buckets_untouched (s : Store) :
    (∀ ukv node_ok data_ok v c s1 ops,
      keyvalue_set s ukv node_ok data_ok = Outcome.ret v c s1 ops →
      ∀ j, j ≠ ukv.key &&& 0x3ff → s1.KV_HashTable j = s.KV_HashTable j) ∧
    (∀ key v c s1 ops, keyvalue_delete s key = Outcome.ret v c s1 ops →
      ∀ j, j ≠ key &&& 0x3ff → s1.KV_HashTable j = s.KV_HashTable j) :=
  ⟨fun ukv node_ok data_ok v c s1 ops h j hj =>
      keyvalue_set_frame s s1 ukv node_ok data_ok v c ops h j hj,
    fun key v c s1 ops h j hj => keyvalue_delete_frame s s1 key v c ops h j hj⟩

/-- A run of `other_buckets_untouched`: a set of key 0 leaves bucket 5, which
holds key 5, as it was. -/
theorem other_buckets_untouched_witness :
    (advance (set_bucket ⟨0, fun j => if j = 5 then hash_ptr.node 0 [1] 1 hash_ptr.NULL
        else hash_ptr.NULL⟩ 0 (hash_ptr.node 0 [9] 1 hash_ptr.NULL))).KV_HashTable 5 =
      hash_ptr.node 0 [1] 1 hash_ptr.NULL :=
  (other_buckets_untouched
    ⟨0, fun j => if j = 5 then hash_ptr.node 0 [1] 1 hash_ptr.NULL else hash_ptr.NULL⟩).1
    ⟨0, 1, [9]⟩ true true 1 none _ _ rfl 5 (by decide)

/-- C19: a `keyvalue_get` that returns leaves every bucket chain as it was; it
leaves the whole store as it was when it returns -1, and otherwise it has only
incremented `transaction_id`. -/
theorem get_is_read_only (s s1 : Store) (key : Nat) (v : Int) (c : Option user_copy)
    (ops : List lock_op) (h : keyvalue_get s key = Outcome.ret v c s1 ops) :
    s1.KV_HashTable = s.KV_HashTable ∧ (v = -1 → s1 = s) ∧
    (v ≠ -1 → s1 = ⟨(s.transaction_id + 1) % 4294967296, s.KV_HashTable⟩) := by
  rcases keyvalue_get_store s s1 key v c ops h with ⟨hv, e⟩ | ⟨hv, e⟩
  · subst e
    exact ⟨rfl, fun _ => rfl, fun hne => absurd hv hne⟩
  · subst e
    exact ⟨rfl, fun e1 => absurd e1 hv, fun _ => rfl⟩

/-- A run of `get_is_read_only`: a successful get of key 5. -/
theorem get_is_read_only_witness :
    keyvalue_get ⟨3, fun j => if j = 5 then hash_ptr.node 0 [1] 1 hash_ptr.NULL
        else hash_ptr.NULL⟩ 5 =
      Outcome.ret 4 (some ⟨1, [1]⟩) (advance ⟨3, fun j => if j = 5 then
        hash_ptr.node 0 [1] 1 hash_ptr.NULL else hash_ptr.NULL⟩)
        [lock_op.acquire_read_lock, lock_op.release_read_lock, lock_op.lock_transaction_lock,
          lock_op.unlock_transaction_lock] ∧
    (advance ⟨3, fun j => if j = 5 then hash_ptr.node 0 [1] 1 hash_ptr.NULL
        else hash_ptr.NULL⟩).KV_HashTable =
      (fun j => if j = 5 then hash_ptr.node 0 [1] 1 hash_ptr.NULL else hash_ptr.NULL) :=
  ⟨rfl, (get_is_read_only
    ⟨3, fun j => if j = 5 then hash_ptr.node 0 [1] 1 hash_ptr.NULL else hash_ptr.NULL⟩
    _ 5 4 (some ⟨1, [1]⟩) _ rfl).1⟩

/-! ## The range of a success token (C20) -/

/-- A call that returns has either returned -1 without touching
`transaction_lock`, or taken `transaction_lock` and returned the incremented
counter. -/
theorem call_token_ops (s s1 : Store) (r : request) (v : Int) (c : Option user_copy)
    (ops : List lock_op) (h : call s r = Outcome.ret v c s1 ops) :
    (v = -1 ∧ lock_op.lock_transaction_lock ∉ ops) ∨
    (v = Int.ofNat ((s.transaction_id + 1) % UINT_RANGE) ∧
      lock_op.lock_transaction_lock ∈ ops) := by
  cases r with
  | get key =>
      simp only [call] at h
      unfold keyvalue_get at h
      repeat' split at h
      all_goals first
        | (simp at h; done)
        | (simp only [Outcome.ret.injEq] at h
           obtain ⟨h1, -, -, h4⟩ := h
           subst h1 h4
           simp [advance, set_bucket])
  | set ukv node_ok data_ok =>
      simp only [call] at h
      unfold keyvalue_set at h
      repeat' split at h
      all_goals first
        | (simp at h; done)
        | (simp only [Outcome.ret.injEq] at h
           obtain ⟨h1, -, -, h4⟩ := h
           subst h1 h4
           simp [advance, set_bucket])
  | delete key =>
      simp only [call] at h
      unfold keyvalue_delete at h
      repeat' split at h
      all_goals first
        | (simp at h; done)
        | (simp only [Outcome.ret.injEq] at h
           obtain ⟨h1, -, -, h4⟩ := h
           subst h1 h4
           simp [advance, set_bucket])

/-- C20: a call of `keyvalue_get`, `keyvalue_set` or `keyvalue_delete` that
succeeds, that is, reaches `transaction_id++` under `transaction_lock`, returns
the counter incremented modulo `2 ^ 32`: a value from 0 to `2 ^ 32 - 1`, within
a 64-bit `long` and never -1, and 0 when the counter was `2 ^ 32 - 1`. -/
theorem success_token_in_range (s s1 : Store) (r : request) (v : Int)
    (c : Option user_copy) (ops : List lock_op) (h : call s r = Outcome.ret v c s1 ops)
    (hs : lock_op.lock_transaction_lock ∈ ops) :
    v = Int.ofNat ((s.transaction_id + 1) % 4294967296) ∧ 0 ≤ v ∧ v ≤ 4294967295 ∧
    v ≠ -1 ∧ -(2 : Int) ^ 63 ≤ v ∧ v < (2 : Int) ^ 63 ∧
    (s.transaction_id = 4294967295 → v = 0) := by
  rcases call_token_ops s s1 r v c ops h with ⟨-, hno⟩ | ⟨hv, -⟩
  · exact absurd hs hno
  · subst hv
    have hlt : (s.transaction_id + 1) % 4294967296 < 4294967296 := Nat.mod_lt _ (by decide)
    simp only [Int.ofNat_eq_coe, UINT_RANGE]
    refine ⟨trivial, by omega, by omega, by omega, by omega, by omega, ?_⟩
    intro e
    rw [e]
    rfl

/-- A run of `success_token_in_range`: with the counter at `2 ^ 32 - 1` a
successful set returns the token 0. -/
theorem success_token_in_range_witness :
    call ⟨4294967295, fun _ => hash_ptr.NULL⟩ (request.set ⟨0, 1, [5]⟩ true true) =
      Outcome.ret 0 none
        (advance (set_bucket ⟨4294967295, fun _ => hash_ptr.NULL⟩ 0
          (hash_ptr.node 0 [5] 1 hash_ptr.NULL)))
        [lock_op.lock_update_lock, lock_op.unlock_update_lock, lock_op.lock_transaction_lock,
          lock_op.unlock_transaction_lock] ∧
    ((0 : Int) = Int.ofNat ((4294967295 + 1) % 4294967296) ∧ (0 : Int) ≤ 0 ∧
      (0 : Int) ≤ 4294967295 ∧ (0 : Int) ≠ -1 ∧ -(2 : Int) ^ 63 ≤ 0 ∧ (0 : Int) < (2 : Int) ^ 63 ∧
      ((4294967295 : Nat) = 4294967295 → (0 : Int) = 0)) :=
  ⟨rfl, success_token_in_range ⟨4294967295, fun _ => hash_ptr.NULL⟩ _
    (request.set ⟨0, 1, [5]⟩ true true) 0 none _ rfl (by decide)⟩

end KeyValue
